import Mathlib

/-!
# Table brush of the map editor (`source/table_brush.cpp`)

A shallow embedding of `TableBrush::load`, `TableBrush::undraw`,
`TableBrush::draw`, `hasMatchingTableBrushAtTile` and `TableBrush::doTables`.

Conventions of the embedding.

* A `TableBrush*` is a `BrushId`; `nullptr` is `none`.
* `int` values are integers (`Int`); the addition into `total_chance` wraps
  at 32 bits (`int32`); `uint16_t` item ids are natural numbers.
* The pseudo random generator `random(lo, hi)` is an explicit argument.
* Declarations the translation unit only includes (the item database, tiles,
  the map accessor, the alignment enumeration, the classification table) are
  either parameters or small definitions marked `Modelled from the spec`.
-/

namespace Rme

/-! ## Data model -/

/-- Entry of a pool, `struct TableType`: the item id and its `chance`. -/
structure TableType where
  item_id : Nat
  chance : Int
deriving DecidableEq

/-- Pool of one alignment, `struct TableNode`: the cached `total_chance` and
the ordered candidates. -/
structure TableNode where
  total_chance : Int
  items : List TableType
deriving DecidableEq

/-- Identity of a `TableBrush` instance (the value of the pointer). -/
abbrev BrushId := Nat

/-- Fields of a `TableBrush`: `look_id` and the array `table_items[7]`. -/
structure TableBrush where
  look_id : Nat
  table_items : Fin 7 → TableNode

/-! ## The weighted selection loop

Both `TableBrush::draw` (lines 141-150) and `TableBrush::doTables`
(lines 256-265) run the same loop over `tn.items`. -/

/-- The loop `for (it : tn.items) { if (chance <= it->chance) { type =
it->item_id; break; } chance -= it->chance; }` started with `type = 0`;
the value is `type` after the loop. -/
def selectLoop : Int → List TableType → Nat
  | _, [] => 0
  | chance, tt :: rest =>
    if chance ≤ tt.chance then tt.item_id else selectLoop (chance - tt.chance) rest

/-- The same loop, recording the position of the iterator at `break`
(`none` when the loop runs off the end of the vector). -/
def selectIter : Int → List TableType → Option Nat
  | _, [] => none
  | chance, tt :: rest =>
    if chance ≤ tt.chance then some 0
    else (selectIter (chance - tt.chance) rest).map (· + 1)

/-- Sum of the `chance` fields of a candidate list. -/
def sumChance (items : List TableType) : Int :=
  (items.map (·.chance)).sum

/-- Cumulative weight up to and including position `i`. -/
def cumulative (items : List TableType) (i : Nat) : Int :=
  sumChance (items.take (i + 1))

/-! ## Item database, items, tiles and the map

The translation unit uses these through `items.h` and `basemap.h`. -/

/-- Entry of the item database as `TableBrush::load` uses it: `id` (zero for
an id the database does not know), `clientID`, the flag `isTable` and the
owning brush `brush` (`none` for `nullptr`). -/
structure ItemType where
  id : Nat
  clientID : Nat
  isTable : Bool
  brush : Option BrushId
deriving DecidableEq

/-- The global `item_db`, indexed by item id (`item_db[id]`). -/
abbrev ItemDatabase := Nat → ItemType

/-- Placed object: its type identifier and `attrs`, standing for every other
piece of state tied to the object. -/
structure Item where
  id : Nat
  attrs : Nat
deriving DecidableEq

/-- Modelled from the spec: `Item::isTable()`, absent from the sources at
hand; the flag "is a table piece" of the object, resolved through the type
identifier against the item database. -/
def Item.isTable (db : ItemDatabase) (it : Item) : Bool :=
  (db it.id).isTable

/-- Modelled from the spec: `Item::getTableBrush()`, absent from the sources
at hand; the back-reference to the owning table brush, resolved through the
type identifier against the item database, present only on objects that carry
the table flag. -/
def Item.getTableBrush (db : ItemDatabase) (it : Item) : Option BrushId :=
  if (db it.id).isTable then (db it.id).brush else none

/-- Modelled from the spec: `Item::setID`, absent from the sources at hand;
mutates the type identifier in place, all other state survives. -/
def Item.setID (it : Item) (id : Nat) : Item :=
  { it with id := id }

/-- Modelled from the spec: `Item::Create(type)`, absent from the sources at
hand; a fresh object of the given type. -/
def Item.Create (type : Nat) : Item :=
  ⟨type, 0⟩

/-- Tile: its position and the vector `items` it owns. -/
structure Tile where
  x : Int
  y : Int
  z : Int
  items : List Item
deriving DecidableEq

/-- Modelled from the spec: `Tile::hasTable()`, absent from the sources at
hand; a tile has a table iff at least one contained object carries the table
flag. -/
def Tile.hasTable (db : ItemDatabase) (t : Tile) : Bool :=
  t.items.any (fun it => it.isTable db)

/-- Modelled from the spec: `Tile::addItem`, absent from the sources at hand;
inserts the object into the tile, after the objects already there. -/
def Tile.addItem (t : Tile) (it : Item) : Tile :=
  { t with items := t.items ++ [it] }

/-- The map accessor `map->getTile(x, y, z)`: `none` where the map has no
tile. A tile is stored under its own position. -/
abbrev BaseMap := Int → Int → Int → Option Tile

/-- The map with the tile at `(x, y, z)` replaced. -/
def BaseMap.setTile (map : BaseMap) (x y z : Int) (t : Tile) : BaseMap :=
  fun a b c => if a = x ∧ b = y ∧ c = z then some t else map a b c

/-- Process state the brush code reads and writes: the item database and the
table brushes, by identity. -/
structure World where
  item_db : ItemDatabase
  brushes : BrushId → TableBrush

/-! ## `TableBrush::undraw` -/

/-- The `while` loop of `TableBrush::undraw` over `t->items`: an object is
erased when `isTable()` holds and `getTableBrush() == this`. -/
def undrawLoop (db : ItemDatabase) (self : BrushId) : List Item → List Item
  | [] => []
  | it :: rest =>
    if it.isTable db then
      if it.getTableBrush db = some self then undrawLoop db self rest
      else it :: undrawLoop db self rest
    else it :: undrawLoop db self rest

/-- `TableBrush::undraw(map, t)`; `self` is `this`. -/
def TableBrush.undraw (db : ItemDatabase) (self : BrushId) (t : Tile) : Tile :=
  { t with items := undrawLoop db self t.items }

/-! ## `TableBrush::draw` -/

/-- `TableBrush::draw(map, tile, parameter)`; `self` is `this`, `brush` its
fields and `random lo hi` the value the call `random(lo, hi)` returns. -/
def TableBrush.draw (db : ItemDatabase) (self : BrushId) (brush : TableBrush)
    (random : Int → Int → Int) (tile : Tile) : Tile :=
  let tile := TableBrush.undraw db self tile
  let tn := brush.table_items 0
  if tn.total_chance ≤ 0 then tile
  else
    let chance := random 1 tn.total_chance
    let type := selectLoop chance tn.items
    if type ≠ 0 then tile.addItem (Item.Create type) else tile

/-! ## `hasMatchingTableBrushAtTile` and `TableBrush::doTables` -/

/-- `hasMatchingTableBrushAtTile(map, table_brush, x, y, z)`. -/
def hasMatchingTableBrushAtTile (db : ItemDatabase) (map : BaseMap) (table_brush : BrushId)
    (x y z : Int) : Bool :=
  match map x y z with
  | none => false
  | some t => t.items.any (fun it => decide (it.getTableBrush db = some table_brush))

/-- The array `bool neighbours[8]` as filled by the case split on `x == 0`
and `y == 0` (lines 199-237). -/
def neighbours (db : ItemDatabase) (map : BaseMap) (table_brush : BrushId) (x y z : Int) :
    List Bool :=
  if x = 0 then
    if y = 0 then
      [false, false, false, false,
       hasMatchingTableBrushAtTile db map table_brush (x + 1) y z,
       false,
       hasMatchingTableBrushAtTile db map table_brush x (y + 1) z,
       hasMatchingTableBrushAtTile db map table_brush (x + 1) (y + 1) z]
    else
      [false,
       hasMatchingTableBrushAtTile db map table_brush x (y - 1) z,
       hasMatchingTableBrushAtTile db map table_brush (x + 1) (y - 1) z,
       false,
       hasMatchingTableBrushAtTile db map table_brush (x + 1) y z,
       false,
       hasMatchingTableBrushAtTile db map table_brush x (y + 1) z,
       hasMatchingTableBrushAtTile db map table_brush (x + 1) (y + 1) z]
  else if y = 0 then
    [false, false, false,
     hasMatchingTableBrushAtTile db map table_brush (x - 1) y z,
     hasMatchingTableBrushAtTile db map table_brush (x + 1) y z,
     hasMatchingTableBrushAtTile db map table_brush (x - 1) (y + 1) z,
     hasMatchingTableBrushAtTile db map table_brush x (y + 1) z,
     hasMatchingTableBrushAtTile db map table_brush (x + 1) (y + 1) z]
  else
    [hasMatchingTableBrushAtTile db map table_brush (x - 1) (y - 1) z,
     hasMatchingTableBrushAtTile db map table_brush x (y - 1) z,
     hasMatchingTableBrushAtTile db map table_brush (x + 1) (y - 1) z,
     hasMatchingTableBrushAtTile db map table_brush (x - 1) y z,
     hasMatchingTableBrushAtTile db map table_brush (x + 1) y z,
     hasMatchingTableBrushAtTile db map table_brush (x - 1) (y + 1) z,
     hasMatchingTableBrushAtTile db map table_brush x (y + 1) z,
     hasMatchingTableBrushAtTile db map table_brush (x + 1) (y + 1) z]

/-- The loop `for (i = 0; i < 8; i++) if (neighbours[i]) tiledata |= 1 << i`
started with `tiledata = 0`. -/
def tiledataLoop (nb : List Bool) : Nat :=
  (List.range 8).foldl
    (fun tiledata i => if nb.getD i false then tiledata ||| (1 <<< i) else tiledata) 0

/-- The border type resolved for an object of brush `table_brush` on a tile at
`(x, y, z)`: `table_types[tiledata]`. The static array `table_types` is filled
outside this translation unit and is a parameter; its entries are indices into
`table_items[7]` (line 248: "bt is always valid"). -/
def resolveBorderType (db : ItemDatabase) (table_types : Nat → Fin 7) (map : BaseMap)
    (table_brush : BrushId) (x y z : Int) : Fin 7 :=
  table_types (tiledataLoop (neighbours db map table_brush x y z))

/-- The `for` loop of `TableBrush::doTables` over `tile->items`. `random k lo
hi` is the value of the `k`-th call `random(lo, hi)` of this invocation; the
`return` of line 252 leaves the remaining objects as they are. -/
def doTablesLoop (w : World) (table_types : Nat → Fin 7) (map : BaseMap)
    (random : Nat → Int → Int → Int) (x y z : Int) : Nat → List Item → List Item
  | _, [] => []
  | k, item :: rest =>
    match item.getTableBrush w.item_db with
    | none => item :: doTablesLoop w table_types map random x y z k rest
    | some table_brush =>
      let bt := resolveBorderType w.item_db table_types map table_brush x y z
      let tn := (w.brushes table_brush).table_items bt
      if tn.total_chance = 0 then item :: rest
      else
        let chance := random k 1 tn.total_chance
        let id := selectLoop chance tn.items
        (if id ≠ 0 then item.setID id else item)
          :: doTablesLoop w table_types map random x y z (k + 1) rest

/-- `TableBrush::doTables(map, tile)`: the value is the tile after the call
(the only writes of the function are the `item->setID(id)` on its objects). -/
def TableBrush.doTables (w : World) (table_types : Nat → Fin 7) (map : BaseMap)
    (random : Nat → Int → Int → Int) (tile : Tile) : Tile :=
  if tile.hasTable w.item_db = false then tile
  else
    { tile with
      items := doTablesLoop w table_types map random tile.x tile.y tile.z 0 tile.items }

/-- The map after `doTables(map, tile)` for the tile the map holds at
`(x, y, z)`: the writes through `item->setID` land in that tile of the map. -/
def doTablesOnMap (w : World) (table_types : Nat → Fin 7) (random : Nat → Int → Int → Int)
    (map : BaseMap) (x y z : Int) : BaseMap :=
  match map x y z with
  | none => map
  | some tile => map.setTile x y z (TableBrush.doTables w table_types map random tile)

/-! ### Reference definition of the neighbour mask -/

/-- Offsets of the eight neighbours, bit 0 to bit 7: NW, N, NE, W, E, SW, S,
SE. -/
def neighbourOffsets : List (Int × Int) :=
  [(-1, -1), (0, -1), (1, -1), (-1, 0), (1, 0), (-1, 1), (0, 1), (1, 1)]

/-- Reference bit `i` of the mask, in the words of the specification: set iff
the neighbour coordinate is non-negative in x and y, the map has a tile there
and that tile contains an object whose table brush is `table_brush`. -/
def referenceBit (db : ItemDatabase) (map : BaseMap) (table_brush : BrushId)
    (x y z : Int) (i : Nat) : Bool :=
  let d := neighbourOffsets.getD i (0, 0)
  decide (0 ≤ x + d.1) && decide (0 ≤ y + d.2) &&
    (match map (x + d.1) (y + d.2) z with
     | none => false
     | some t => t.items.any (fun it => decide (it.getTableBrush db = some table_brush)))

/-- Reference mask: the sum of `2 ^ i` over the set reference bits. -/
def referenceMask (db : ItemDatabase) (map : BaseMap) (table_brush : BrushId)
    (x y z : Int) : Nat :=
  ((List.range 8).map
    (fun i => if referenceBit db map table_brush x y z i then 2 ^ i else 0)).sum

/-! ## `TableBrush::load` -/

/-- Values of the alignment constants `TABLE_VERTICAL` ... `TABLE_ALONE`,
indices into `table_items[7]`. The enumeration is declared outside this
translation unit, so the values are a parameter. -/
structure TableAlignment where
  TABLE_VERTICAL : Fin 7
  TABLE_HORIZONTAL : Fin 7
  TABLE_SOUTH_END : Fin 7
  TABLE_EAST_END : Fin 7
  TABLE_NORTH_END : Fin 7
  TABLE_WEST_END : Fin 7
  TABLE_ALONE : Fin 7

/-- Child of a table node: its tag name and the values
`pugi::cast<uint16_t>(attribute("id"))` (zero when unreadable) and
`pugi::cast<int32_t>(attribute("chance"))`. -/
structure XmlItemNode where
  name : String
  id : Nat
  chance : Int
deriving DecidableEq

/-- Child of the brush node: its tag name, the `align` attribute as a string
(empty when missing) and its children. -/
structure XmlTableNode where
  name : String
  align : String
  children : List XmlItemNode
deriving DecidableEq

/-- The brush node: the values of `server_lookid` and `lookid` after the cast
to `uint16_t`, and its children. -/
structure XmlBrushNode where
  server_lookid : Nat
  lookid : Nat
  children : List XmlTableNode
deriving DecidableEq

/-- Modelled from the spec: `as_lower_str`, absent from the sources at hand;
the string with its letters in lower case. -/
def as_lower_str (s : String) : String :=
  String.mk (s.data.map Char.toLower)

/-- The `if / else if` chain of lines 45-62 on `alignString`; `none` is the
final `else` branch. -/
def alignmentOf (al : TableAlignment) (alignString : String) : Option (Fin 7) :=
  if alignString = "vertical" then some al.TABLE_VERTICAL
  else if alignString = "horizontal" then some al.TABLE_HORIZONTAL
  else if alignString = "south" then some al.TABLE_SOUTH_END
  else if alignString = "east" then some al.TABLE_EAST_END
  else if alignString = "north" then some al.TABLE_NORTH_END
  else if alignString = "west" then some al.TABLE_WEST_END
  else if alignString = "alone" then some al.TABLE_ALONE
  else none

/-- What `TableBrush::load` reads and writes: the global `item_db`, the fields
of `*this` and the `warnings` array. -/
structure LoadState where
  item_db : ItemDatabase
  brush : TableBrush
  warnings : List String

/-- Appends a warning (`warnings.push_back`). -/
def LoadState.warn (st : LoadState) (msg : String) : LoadState :=
  { st with warnings := st.warnings ++ [msg] }

/-- The value a 32-bit `int` holds after an arithmetic operation whose exact
result is `v`: the two's-complement wrap-around into `[-2^31, 2^31)`. -/
def int32 (v : Int) : Int :=
  (v + 2147483648) % 4294967296 - 2147483648

/-- Lines 84-92: flags the item type as a table of this brush and appends the
candidate to the pool of `alignment`, adding its chance to `total_chance` in
32-bit arithmetic (line 91). -/
def LoadState.register (st : LoadState) (self : BrushId) (alignment : Fin 7)
    (id : Nat) (chance : Int) : LoadState :=
  { st with
    item_db := Function.update st.item_db id
      { st.item_db id with isTable := true, brush := some self }
    brush :=
      { st.brush with
        table_items := Function.update st.brush.table_items alignment
          { total_chance := int32 ((st.brush.table_items alignment).total_chance + chance)
            items := (st.brush.table_items alignment).items ++ [⟨id, chance⟩] } } }

/-- The inner loop of `load` over the children of one table node (lines
64-93). The flag is `false` when a `return false` was executed, `true` when
the loop ended (at its end or by the `break` of line 72). -/
def loadItems (self : BrushId) (alignment : Fin 7) :
    List XmlItemNode → LoadState → Bool × LoadState
  | [], st => (true, st)
  | sub :: rest, st =>
    if as_lower_str sub.name ≠ "item" then loadItems self alignment rest st
    else if sub.id = 0 then (true, st.warn "Could not read id tag of item node\n")
    else if (st.item_db sub.id).id = 0 then
      (false, st.warn ("There is no itemtype with id " ++ toString sub.id))
    else if (st.item_db sub.id).brush ≠ none ∧ (st.item_db sub.id).brush ≠ some self then
      (false, st.warn ("Itemtype id " ++ toString sub.id ++ " already has a brush"))
    else loadItems self alignment rest (st.register self alignment sub.id sub.chance)

/-- The outer loop of `load` over the children of the brush node (lines
33-94), with the same flag. -/
def loadTables (al : TableAlignment) (self : BrushId) :
    List XmlTableNode → LoadState → Bool × LoadState
  | [], st => (true, st)
  | child :: rest, st =>
    if as_lower_str child.name ≠ "table" then loadTables al self rest st
    else if child.align.isEmpty then
      loadTables al self rest (st.warn "Could not read type tag of table node\n")
    else
      match alignmentOf al child.align with
      | none =>
        loadTables al self rest
          (st.warn ("Unknown table alignment \x27" ++ child.align ++ "\x27\n"))
      | some alignment =>
        match loadItems self alignment child.children st with
        | (false, st1) => (false, st1)
        | (true, st1) => loadTables al self rest st1

/-- `TableBrush::load(node, warnings)`; `self` is `this`. The first component
is the returned `bool`. -/
def TableBrush.load (al : TableAlignment) (self : BrushId) (node : XmlBrushNode)
    (st : LoadState) : Bool × LoadState :=
  let look_id := (st.item_db node.server_lookid).clientID
  let look_id := if look_id = 0 then node.lookid else look_id
  loadTables al self node.children { st with brush := { st.brush with look_id := look_id } }

/-- The brush right after `TableBrush::TableBrush()`: `look_id` zero, every
pool empty with `total_chance` zero. -/
def TableBrush.empty : TableBrush :=
  ⟨0, fun _ => ⟨0, []⟩⟩

/-- The call `brushes[self]->load(node, warnings)` on the process state: the
returned flag and the state after the call (warnings dropped). -/
def World.load (al : TableAlignment) (w : World) (self : BrushId) (node : XmlBrushNode) :
    Bool × World :=
  let r := TableBrush.load al self node ⟨w.item_db, w.brushes self, []⟩
  (r.1, ⟨r.2.item_db, Function.update w.brushes self r.2.brush⟩)

/-- Process states built by `load` calls: any item database with freshly
constructed brushes, then any number of `load` calls (whatever they return). -/
inductive World.Loaded (al : TableAlignment) : World → Prop
  | init (db : ItemDatabase) : World.Loaded al ⟨db, fun _ => TableBrush.empty⟩
  | load (w : World) (self : BrushId) (node : XmlBrushNode) :
      World.Loaded al w → World.Loaded al (World.load al w self node).2

/-- Every candidate of every pool of every brush has a non-zero id whose item
type carries the table flag and is claimed by that brush. -/
def World.PoolsOwned (w : World) : Prop :=
  ∀ (b : BrushId) (a : Fin 7) (t : TableType), t ∈ ((w.brushes b).table_items a).items →
    t.item_id ≠ 0 ∧ (w.item_db t.item_id).isTable = true ∧
      (w.item_db t.item_id).brush = some b

/-! ## Concrete configurations used in the instances below -/

/-- An assignment of the seven alignment constants to the indices 0 to 6:
north end 0, south end 1, east end 2, west end 3, horizontal 4, vertical 5,
alone 6. -/
def exampleAlignment : TableAlignment :=
  { TABLE_VERTICAL := 5, TABLE_HORIZONTAL := 4, TABLE_SOUTH_END := 1, TABLE_EAST_END := 2,
    TABLE_NORTH_END := 0, TABLE_WEST_END := 3, TABLE_ALONE := 6 }

/-- An item database that knows the ids 1 to 9, none of them claimed by a
brush. -/
def exampleDb : ItemDatabase :=
  fun id => if 1 ≤ id ∧ id ≤ 9 then ⟨id, id + 100, false, none⟩ else ⟨0, 0, false, none⟩

/-- The process state before any brush is loaded. -/
def exampleInit : World :=
  ⟨exampleDb, fun _ => TableBrush.empty⟩

/-- A brush definition with one north-end piece, id 4 with chance 1, and no
piece of any other alignment. -/
def northOnlyNode : XmlBrushNode :=
  ⟨0, 0, [⟨"table", "north", [⟨"item", 4, 1⟩]⟩]⟩

/-- The process state after brush 3 loaded `northOnlyNode`. -/
def northOnlyWorld : World :=
  (World.load exampleAlignment exampleInit 3 northOnlyNode).2

/-- A random source that always returns the lower bound of the range. -/
def lowestRandom : Int → Int → Int :=
  fun lo _ => lo

/-- An empty tile at position (5, 5, 7). -/
def emptyTile : Tile :=
  ⟨5, 5, 7, []⟩

/-- An item database in which id 1 is a table piece of brush 1. -/
def cornerDb : ItemDatabase :=
  fun id => if id = 1 then ⟨1, 101, true, some 1⟩ else ⟨0, 0, false, none⟩

/-- A map with tiles at (0,0), (1,0), (0,1) and (1,1) on floor 7, each holding
one object of id 1, and no other tile. -/
def cornerMap : BaseMap :=
  fun a b c =>
    if c = 7 ∧ (a = 0 ∨ a = 1) ∧ (b = 0 ∨ b = 1) then some ⟨a, b, c, [⟨1, 0⟩]⟩ else none

/-- A brush definition whose only piece, id 1, carries chance 0 (the value of
a missing or unreadable `chance` attribute). -/
def zeroChanceNode : XmlBrushNode :=
  ⟨0, 0, [⟨"table", "alone", [⟨"item", 1, 0⟩]⟩]⟩

/-- A brush definition that registers, under each of the seven alignments, id 2
with chance 1 and id 3 with chance 0. -/
def allAlignmentsNode : XmlBrushNode :=
  ⟨0, 0,
    ["vertical", "horizontal", "south", "east", "north", "west", "alone"].map
      (fun a => ⟨"table", a, [⟨"item", 2, 1⟩, ⟨"item", 3, 0⟩]⟩)⟩

/-- The process state after brush 1 loaded `zeroChanceNode` and brush 2 loaded
`allAlignmentsNode`. -/
def twoBrushWorld : World :=
  (World.load exampleAlignment
    (World.load exampleAlignment exampleInit 1 zeroChanceNode).2 2 allAlignmentsNode).2

/-- A map without tiles. -/
def emptyMap : BaseMap :=
  fun _ _ _ => none

/-- A tile at (5, 5, 7) holding an object of brush 1 (id 1) followed by an
object of brush 2 (id 3). -/
def twoTablesTile : Tile :=
  ⟨5, 5, 7, [⟨1, 0⟩, ⟨3, 0⟩]⟩

/-- A tile at (5, 5, 7) holding only the object of brush 2 (id 3). -/
def oneTableTile : Tile :=
  ⟨5, 5, 7, [⟨3, 0⟩]⟩

/-- A random source for `doTables` whose every call returns the lower bound of
the range. -/
def lowestRandomSeq : Nat → Int → Int → Int :=
  fun _ lo _ => lo

/-- A tile at (5, 5, 7) holding an object of brush 2 (id 3), a non-table object
(id 9) and an object of brush 1 (id 1). -/
def mixedTile : Tile :=
  ⟨5, 5, 7, [⟨3, 0⟩, ⟨9, 4⟩, ⟨1, 0⟩]⟩

/-- A classification table that sends every mask to index 6. -/
def constantTypes : Nat → Fin 7 :=
  fun _ => 6

/-- A map whose only tile is `mixedTile`, at (5, 5, 7). -/
def mixedMap : BaseMap :=
  emptyMap.setTile 5 5 7 mixedTile

/-! ## Invariants and auxiliary notions for `load` -/

/-- Every candidate id of every pool of every brush is known to the item
database (`item_db[id].id != 0`). -/
def World.PoolsKnown (w : World) : Prop :=
  ∀ (b : BrushId) (a : Fin 7) (t : TableType), t ∈ ((w.brushes b).table_items a).items →
    (w.item_db t.item_id).id ≠ 0

/-- In every pool of the brush `total_chance` is the sum of the chances of
its candidates, wrapped to 32 bits. -/
def TableBrush.TotalsWrapped (brush : TableBrush) : Prop :=
  ∀ a : Fin 7,
    (brush.table_items a).total_chance = int32 (sumChance (brush.table_items a).items)

/-- Every candidate of the brush has a non-negative chance. -/
def TableBrush.WeightsNonNegative (brush : TableBrush) : Prop :=
  ∀ a : Fin 7, ∀ t ∈ (brush.table_items a).items, 0 ≤ t.chance

/-- No entry of the list makes the inner loop of `load` execute the `break` of
line 72: no child named `item` has id zero. -/
def noBreak (items : List XmlItemNode) : Prop :=
  ∀ s ∈ items, as_lower_str s.name = "item" → s.id ≠ 0

/-- The brush definition cut right before an item entry: the table nodes `pre`,
then the table node `tbl` with only the children `ipre`. -/
def XmlBrushNode.cutBefore (node : XmlBrushNode) (pre : List XmlTableNode) (tbl : XmlTableNode)
    (ipre : List XmlItemNode) : XmlBrushNode :=
  ⟨node.server_lookid, node.lookid, pre ++ [{ tbl with children := ipre }]⟩

/-- The item entry stops `load` with `return false` in the given state: it is
named `item`, its id is not zero, and the id is unknown to the item database or
already claimed by a brush other than `self`. -/
def offending (self : BrushId) (st : LoadState) (sub : XmlItemNode) : Prop :=
  as_lower_str sub.name = "item" ∧ sub.id ≠ 0 ∧
    ((st.item_db sub.id).id = 0 ∨
      ((st.item_db sub.id).brush ≠ none ∧ (st.item_db sub.id).brush ≠ some self))

/-- The warning pushed by the `return false` branch taken for the entry. -/
def failureWarning (st : LoadState) (sub : XmlItemNode) : String :=
  if (st.item_db sub.id).id = 0 then "There is no itemtype with id " ++ toString sub.id
  else "Itemtype id " ++ toString sub.id ++ " already has a brush"

/-- The table node passes the guards of lines 34-62 and its entries are filed
under `alignment`: it is named `table`, its `align` attribute is not empty and
is one of the seven recognised strings. -/
def validTable (al : TableAlignment) (tbl : XmlTableNode) (alignment : Fin 7) : Prop :=
  as_lower_str tbl.name = "table" ∧ tbl.align.isEmpty = false ∧
    alignmentOf al tbl.align = some alignment

/-- An item database that knows the ids 100 to 109, none of them claimed by a
brush. -/
def furnitureDb : ItemDatabase :=
  fun id => if 100 ≤ id ∧ id ≤ 109 then ⟨id, id, false, none⟩ else ⟨0, 0, false, none⟩

/-- The definition of the brush "oak_table" (brush 1): one piece, id 100. -/
def oakNode : XmlBrushNode :=
  ⟨0, 0, [⟨"table", "alone", [⟨"item", 100, 1⟩]⟩]⟩

/-- The table node of the brush "pine_table": ids 101, 100 and 102. -/
def pineTable : XmlTableNode :=
  ⟨"table", "alone", [⟨"item", 101, 1⟩, ⟨"item", 100, 1⟩, ⟨"item", 102, 1⟩]⟩

/-- The definition of the brush "pine_table" (brush 2). -/
def pineNode : XmlBrushNode :=
  ⟨0, 0, [pineTable]⟩

/-- The process state after "oak_table" (brush 1) loaded `oakNode`. -/
def oakWorld : World :=
  (World.load exampleAlignment ⟨furnitureDb, fun _ => TableBrush.empty⟩ 1 oakNode).2

/-- The seven alignment strings the chain of lines 45-58 compares with. -/
def alignmentNames : List String :=
  ["vertical", "horizontal", "south", "east", "north", "west", "alone"]

/-- A brush definition whose table node spells its alignment "Vertical". -/
def capitalNode : XmlBrushNode :=
  ⟨0, 0, [⟨"table", "Vertical", [⟨"item", 4, 1⟩]⟩]⟩

/-- A brush definition whose first table node holds an entry with id 0 followed
by a valid entry (id 5), and whose second table node holds a valid entry
(id 6). -/
def zeroIdNode : XmlBrushNode :=
  ⟨0, 0, [⟨"table", "alone", [⟨"item", 0, 1⟩, ⟨"item", 5, 1⟩]⟩,
          ⟨"table", "north", [⟨"item", 6, 1⟩]⟩]⟩

/-- The first table node of `unknownIdNode`: a valid entry (id 4), an entry
with the unknown id 50 and a valid entry (id 5). -/
def unknownIdTable : XmlTableNode :=
  ⟨"table", "alone", [⟨"item", 4, 1⟩, ⟨"item", 50, 1⟩, ⟨"item", 5, 1⟩]⟩

/-- A brush definition made of `unknownIdTable` and a second table node with a
valid entry (id 6). -/
def unknownIdNode : XmlBrushNode :=
  ⟨0, 0, [unknownIdTable, ⟨"table", "north", [⟨"item", 6, 1⟩]⟩]⟩

/-- The load state of a fresh brush over `exampleDb`. -/
def exampleState : LoadState :=
  ⟨exampleDb, TableBrush.empty, []⟩

/-- A brush definition whose only entry (id 5) carries the chance -5, followed
in the same pool by id 6 with chance 0. -/
def negativeChanceNode : XmlBrushNode :=
  ⟨0, 0, [⟨"table", "alone", [⟨"item", 5, -5⟩, ⟨"item", 6, 0⟩]⟩]⟩

/-- A brush definition whose entries carry the chances 2147483647 and 1, both
non-negative, in the same pool. -/
def overflowNode : XmlBrushNode :=
  ⟨0, 0, [⟨"table", "alone", [⟨"item", 5, 2147483647⟩, ⟨"item", 6, 1⟩]⟩]⟩

/-- The process state after brush 1 loaded `negativeChanceNode`. -/
def negativeWorld : World :=
  (World.load exampleAlignment exampleInit 1 negativeChanceNode).2

/-- A random source that returns the lower bound of every non-empty range and
`v` on an empty range. -/
def randomWithEmptyRange (v : Int) : Nat → Int → Int → Int :=
  fun _ lo hi => if hi < lo then v else lo

/-- A tile at (5, 5, 7) holding one object of id 6. -/
def sixTile : Tile :=
  ⟨5, 5, 7, [⟨6, 0⟩]⟩

/-- The second table node of `twoNodeFailNode`: a valid entry (id 5), an entry
with the unknown id 50 and a valid entry (id 6). -/
def failingTable : XmlTableNode :=
  ⟨"table", "alone", [⟨"item", 5, 3⟩, ⟨"item", 50, 1⟩, ⟨"item", 6, 1⟩]⟩

/-- A brush definition with a first table node holding a valid entry (id 4)
and `failingTable` as its second table node. -/
def twoNodeFailNode : XmlBrushNode :=
  ⟨0, 0, [⟨"table", "north", [⟨"item", 4, 2⟩]⟩, failingTable]⟩

/-- An assignment of the seven alignment constants in which alone is 0:
alone 0, vertical 1, horizontal 2, north end 3, south end 4, east end 5,
west end 6 (the order in which the specification lists the border
categories). -/
def aloneFirstAlignment : TableAlignment :=
  { TABLE_VERTICAL := 1, TABLE_HORIZONTAL := 2, TABLE_SOUTH_END := 4, TABLE_EAST_END := 5,
    TABLE_NORTH_END := 3, TABLE_WEST_END := 6, TABLE_ALONE := 0 }

/-! ## Theorems -/

theorem sumChance_nil : sumChance [] = 0 := rfl

theorem sumChance_cons (t : TableType) (l : List TableType) :
    sumChance (t :: l) = t.chance + sumChance l := by
  simp [sumChance]

theorem cumulative_cons_zero (t : TableType) (l : List TableType) :
    cumulative (t :: l) 0 = t.chance := by
  simp [cumulative, sumChance]

theorem cumulative_cons_succ (t : TableType) (l : List TableType) (i : Nat) :
    cumulative (t :: l) (i + 1) = t.chance + cumulative l i := by
  simp [cumulative, sumChance]

theorem sumChance_nonneg (l : List TableType) (hw : ∀ t ∈ l, 0 ≤ t.chance) :
    0 ≤ sumChance l := by
  induction l with
  | nil => simp [sumChance]
  | cons t l ih =>
    rw [sumChance_cons]
    have h1 := hw t (List.mem_cons_self _ _)
    have h2 := ih (fun s hs => hw s (List.mem_cons_of_mem _ hs))
    omega

theorem cumulative_nonneg (l : List TableType) (hw : ∀ t ∈ l, 0 ≤ t.chance) (i : Nat) :
    0 ≤ cumulative l i :=
  sumChance_nonneg _ (fun t ht => hw t (List.mem_of_mem_take ht))

/-- The id returned by the loop is the id of the candidate at the position
where the loop breaks, and `0` when it never breaks. -/
theorem selectLoop_eq_of_selectIter (items : List TableType) (r : Int) :
    selectLoop r items =
      match selectIter r items with
      | some i => (items.getD i ⟨0, 0⟩).item_id
      | none => 0 := by
  induction items generalizing r with
  | nil => rfl
  | cons t l ih =>
    by_cases h : r ≤ t.chance
    · simp [selectLoop, selectIter, h]
    · simp only [selectLoop, selectIter, h, if_false]
      rw [ih]
      cases selectIter (r - t.chance) l <;> simp

/-- Whenever the drawn value does not exceed the sum of the weights, the loop
breaks, at the first position whose cumulative weight reaches the value. -/
theorem selectIter_first (items : List TableType) (r : Int) (h2 : r ≤ sumChance items)
    (hne : items ≠ []) :
    ∃ i, i < items.length ∧ selectIter r items = some i ∧
      r ≤ cumulative items i ∧ ∀ j, j < i → cumulative items j < r := by
  induction items generalizing r with
  | nil => exact absurd rfl hne
  | cons t l ih =>
    by_cases h : r ≤ t.chance
    · refine ⟨0, by simp, by simp [selectIter, h], by simpa [cumulative_cons_zero] using h, ?_⟩
      intro j hj; omega
    · have hl : l ≠ [] := by
        rintro rfl
        simp [sumChance] at h2
        exact h h2
      rw [sumChance_cons] at h2
      obtain ⟨i, hi, hsel, hle, hlt⟩ := ih (r - t.chance) (by omega) hl
      refine ⟨i + 1, by simpa using hi, by simp [selectIter, h, hsel], ?_, ?_⟩
      · rw [cumulative_cons_succ]; omega
      · intro j hj
        cases j with
        | zero => rw [cumulative_cons_zero]; omega
        | succ j =>
          rw [cumulative_cons_succ]
          have := hlt j (by omega)
          omega

theorem sumChance_append (l1 l2 : List TableType) :
    sumChance (l1 ++ l2) = sumChance l1 + sumChance l2 := by
  simp [sumChance]

theorem cumulative_eq_before_add (items : List TableType) (i : Nat) (hi : i < items.length) :
    cumulative items i = sumChance (items.take i) + (items.get ⟨i, hi⟩).chance := by
  induction items generalizing i with
  | nil => simp at hi
  | cons t l ih =>
    cases i with
    | zero => simp [cumulative, sumChance]
    | succ i =>
      have hi2 : i < l.length := by simpa using hi
      rw [cumulative_cons_succ, ih i hi2]
      simp [sumChance_cons]
      ring

theorem cumulative_le_sumChance (items : List TableType) (hw : ∀ t ∈ items, 0 ≤ t.chance)
    (i : Nat) : cumulative items i ≤ sumChance items := by
  have h := sumChance_append (items.take (i + 1)) (items.drop (i + 1))
  rw [List.take_append_drop] at h
  have hd : 0 ≤ sumChance (items.drop (i + 1)) :=
    sumChance_nonneg _ (fun t ht => hw t (List.mem_of_mem_drop ht))
  unfold cumulative
  omega

/-- With non-negative weights and a drawn value of at least one, the loop
breaks at position `i` exactly when the value lies above the cumulative weight
before `i` and at most at the cumulative weight at `i`. -/
theorem selectIter_eq_some_iff (items : List TableType) (hw : ∀ t ∈ items, 0 ≤ t.chance)
    (r : Int) (h1 : 1 ≤ r) (i : Nat) :
    selectIter r items = some i ↔
      i < items.length ∧ sumChance (items.take i) < r ∧ r ≤ cumulative items i := by
  induction items generalizing r i with
  | nil => simp [selectIter]
  | cons t l ih =>
    have ht := hw t (List.mem_cons_self _ _)
    have hl : ∀ s ∈ l, 0 ≤ s.chance := fun s hs => hw s (List.mem_cons_of_mem _ hs)
    by_cases h : r ≤ t.chance
    · cases i with
      | zero =>
        simp only [selectIter, h, if_true, List.take_zero, sumChance_nil,
          cumulative_cons_zero, List.length_cons, true_iff]
        exact ⟨by omega, by omega, trivial⟩
      | succ i =>
        simp only [selectIter, h, if_true, List.take_succ_cons, sumChance_cons,
          cumulative_cons_succ, List.length_cons]
        have hb : 0 ≤ sumChance (l.take i) :=
          sumChance_nonneg _ (fun s hs => hl s (List.mem_of_mem_take hs))
        constructor
        · intro hc; simp at hc
        · rintro ⟨_, h3, _⟩; omega
    · cases i with
      | zero =>
        simp only [selectIter, h, if_false, cumulative_cons_zero]
        constructor
        · intro hc
          cases hsel : selectIter (r - t.chance) l <;> simp [hsel] at hc
        · rintro ⟨_, _, h3⟩; exact absurd h3 (by simp)
      | succ i =>
        simp only [selectIter, h, if_false, List.take_succ_cons, sumChance_cons,
          cumulative_cons_succ, List.length_cons]
        have hih := ih hl (r - t.chance) (by omega) i
        constructor
        · intro hc
          have hsel : selectIter (r - t.chance) l = some i := by
            cases hs : selectIter (r - t.chance) l with
            | none => simp [hs] at hc
            | some j => simp [hs] at hc; simp [hc]
          obtain ⟨a, b, c⟩ := hih.mp hsel
          exact ⟨by omega, by omega, by omega⟩
        · rintro ⟨a, b, c⟩
          have hsel := hih.mpr ⟨by omega, by omega, by omega⟩
          simp [hsel]

/-- C1. For a pool with non-negative weights whose `total_chance` is the sum of
the weights and positive, and a drawn value `r` with `1 ≤ r ≤ total_chance`,
the subtract-and-compare loop breaks at some candidate, the id it yields is
that candidate's id, and the candidate is the first one in pool order whose
cumulative weight is at least `r`. -/
theorem selectLoop_first_cumulative_reaching (items : List TableType) (total_chance r : Int)
    (hw : ∀ t ∈ items, 0 ≤ t.chance) (ht : total_chance = sumChance items)
    (hpos : 0 < total_chance) (h1 : 1 ≤ r) (h2 : r ≤ total_chance) :
    ∃ i, ∃ hi : i < items.length,
      selectIter r items = some i ∧
      selectLoop r items = (items.get ⟨i, hi⟩).item_id ∧
      r ≤ cumulative items i ∧ ∀ j, j < i → cumulative items j < r := by
  -- the loop reaches the first such candidate even without `hw` and `h1`
  have _hw := hw
  have _h1 := h1
  have hne : items ≠ [] := by
    rintro rfl
    simp [sumChance] at ht
    omega
  obtain ⟨i, hi, hsel, hle, hlt⟩ := selectIter_first items r (by omega) hne
  refine ⟨i, hi, hsel, ?_, hle, hlt⟩
  rw [selectLoop_eq_of_selectIter, hsel]
  simp [List.getD_eq_getElem?_getD, List.getElem?_eq_getElem hi]

/-- Instance of C1 on the pool `[(10, 3), (11, 1)]` with the drawn value 4. -/
theorem selectLoop_first_cumulative_reaching_witness :
    ∃ i, ∃ hi : i < [(⟨10, 3⟩ : TableType), ⟨11, 1⟩].length,
      selectIter 4 [(⟨10, 3⟩ : TableType), ⟨11, 1⟩] = some i ∧
      selectLoop 4 [(⟨10, 3⟩ : TableType), ⟨11, 1⟩]
        = ([(⟨10, 3⟩ : TableType), ⟨11, 1⟩].get ⟨i, hi⟩).item_id ∧
      4 ≤ cumulative [(⟨10, 3⟩ : TableType), ⟨11, 1⟩] i ∧
      ∀ j, j < i → cumulative [(⟨10, 3⟩ : TableType), ⟨11, 1⟩] j < 4 :=
  selectLoop_first_cumulative_reaching [⟨10, 3⟩, ⟨11, 1⟩] 4 4
    (by decide) (by decide) (by decide) (by decide) (by decide)

/-- C2. For a pool with non-negative weights whose `total_chance` is the sum of
the weights and positive, the number of values `r` in `[1, total_chance]` for
which the loop picks the candidate at position `i` equals that candidate's
weight. -/
theorem selectIter_count_eq_chance (items : List TableType) (total_chance : Int)
    (hw : ∀ t ∈ items, 0 ≤ t.chance) (ht : total_chance = sumChance items)
    (hpos : 0 < total_chance) (i : Nat) (hi : i < items.length) :
    ((Finset.Icc 1 total_chance).filter (fun r => selectIter r items = some i)).card
      = ((items.get ⟨i, hi⟩).chance).toNat := by
  have _hpos := hpos
  have hcum := cumulative_eq_before_add items i hi
  have hle := cumulative_le_sumChance items hw i
  have hb : 0 ≤ sumChance (items.take i) :=
    sumChance_nonneg _ (fun s hs => hw s (List.mem_of_mem_take hs))
  have hset : (Finset.Icc 1 total_chance).filter (fun r => selectIter r items = some i)
      = Finset.Ioc (sumChance (items.take i)) (cumulative items i) := by
    ext r
    simp only [Finset.mem_filter, Finset.mem_Icc, Finset.mem_Ioc]
    constructor
    · rintro ⟨⟨h1, _⟩, hsel⟩
      have := (selectIter_eq_some_iff items hw r h1 i).mp hsel
      exact ⟨this.2.1, this.2.2⟩
    · rintro ⟨h3, h4⟩
      have h1 : 1 ≤ r := by omega
      exact ⟨⟨h1, by omega⟩, (selectIter_eq_some_iff items hw r h1 i).mpr ⟨hi, h3, h4⟩⟩
  rw [hset, Int.card_Ioc, hcum]
  congr 1
  omega

/-- Instance of C2: in the pool `[(A, 3), (B, 1)]` exactly three of the four
values of `r` pick `A`, and in `[(A, 0), (B, 2)]` no value picks the candidate
of weight zero. -/
theorem selectIter_count_eq_chance_witness :
    ((Finset.Icc 1 4).filter
        (fun r => selectIter r [(⟨10, 3⟩ : TableType), ⟨11, 1⟩] = some 0)).card = 3 ∧
    ((Finset.Icc 1 2).filter
        (fun r => selectIter r [(⟨10, 0⟩ : TableType), ⟨11, 2⟩] = some 0)).card = 0 :=
  ⟨selectIter_count_eq_chance [⟨10, 3⟩, ⟨11, 1⟩] 4 (by decide) (by decide) (by decide) 0
      (by decide),
   selectIter_count_eq_chance [⟨10, 0⟩, ⟨11, 2⟩] 2 (by decide) (by decide) (by decide) 0
      (by decide)⟩

/-! ### `undraw` -/

theorem getTableBrush_ne_of_not_isTable (db : ItemDatabase) (it : Item) (self : BrushId)
    (h : it.isTable db = false) : it.getTableBrush db ≠ some self := by
  unfold Item.isTable at h
  simp [Item.getTableBrush, h]

/-- The loop of `undraw` keeps exactly the objects whose table brush is not
`self`, in order. -/
theorem undrawLoop_eq_filter (db : ItemDatabase) (self : BrushId) (items : List Item) :
    undrawLoop db self items
      = items.filter (fun it => decide (it.getTableBrush db ≠ some self)) := by
  induction items with
  | nil => rfl
  | cons it rest ih =>
    unfold undrawLoop
    rw [ih]
    by_cases ht : it.isTable db = true
    · by_cases hb : it.getTableBrush db = some self
      · simp [ht, hb]
      · simp [ht, hb]
    · have ht2 : it.isTable db = false := by simpa using ht
      have hb := getTableBrush_ne_of_not_isTable db it self ht2
      simp [ht2, hb]

/-- C3. After `undraw` the tile holds no object whose table brush is the
brush, and the remaining objects are exactly the objects of the tile that were
not owned by the brush (objects of other table brushes and non-table objects),
unchanged and in their original order; the position of the tile is
untouched. -/
theorem undraw_removes_exactly_own (db : ItemDatabase) (self : BrushId) (t : Tile) :
    (∀ it ∈ (TableBrush.undraw db self t).items, it.getTableBrush db ≠ some self) ∧
    (TableBrush.undraw db self t).items
      = t.items.filter (fun it => decide (it.getTableBrush db ≠ some self)) ∧
    (TableBrush.undraw db self t).x = t.x ∧ (TableBrush.undraw db self t).y = t.y ∧
    (TableBrush.undraw db self t).z = t.z := by
  refine ⟨?_, undrawLoop_eq_filter db self t.items, rfl, rfl, rfl⟩
  intro it hit
  have h : it ∈ t.items.filter (fun it => decide (it.getTableBrush db ≠ some self)) := by
    rw [← undrawLoop_eq_filter]; exact hit
  simpa using (List.mem_filter.mp h).2

/-! ### `load` keeps every pool candidate claimed by its brush -/

theorem register_poolsOwned (brushes : BrushId → TableBrush) (st : LoadState) (self : BrushId)
    (alignment : Fin 7) (id : Nat) (chance : Int) (hid : id ≠ 0)
    (hfree : ¬((st.item_db id).brush ≠ none ∧ (st.item_db id).brush ≠ some self))
    (h : World.PoolsOwned ⟨st.item_db, Function.update brushes self st.brush⟩) :
    World.PoolsOwned ⟨(st.register self alignment id chance).item_db,
      Function.update brushes self (st.register self alignment id chance).brush⟩ := by
  intro b a t ht
  simp only [LoadState.register] at ht ⊢
  have key : ∀ t : TableType, t.item_id ≠ 0 →
      ((t.item_id = id) ∨ ((st.item_db t.item_id).isTable = true ∧
        (st.item_db t.item_id).brush = some b)) →
      (t.item_id = id → b = self) →
      t.item_id ≠ 0 ∧
      (Function.update st.item_db id
        { st.item_db id with isTable := true, brush := some self } t.item_id).isTable = true ∧
      (Function.update st.item_db id
        { st.item_db id with isTable := true, brush := some self } t.item_id).brush
          = some b := by
    intro t h0 hor himp
    by_cases hti : t.item_id = id
    · have hb := himp hti
      subst hb
      rw [hti]
      simp [Function.update_same, hid]
    · rcases hor with hor | hor
      · exact absurd hor hti
      · rw [Function.update_noteq hti]
        exact ⟨h0, hor⟩
  by_cases hbs : b = self
  · subst hbs
    rw [Function.update_same] at ht
    simp only at ht
    by_cases haa : a = alignment
    · subst haa
      rw [Function.update_same] at ht
      simp only [List.mem_append, List.mem_singleton] at ht
      rcases ht with ht | ht
      · have hold := h b a t (by simp only [Function.update_same]; exact ht)
        exact key t hold.1 (Or.inr hold.2) (fun _ => rfl)
      · subst ht
        exact key ⟨id, chance⟩ hid (Or.inl rfl) (fun _ => rfl)
    · rw [Function.update_noteq haa] at ht
      have hold := h b a t (by simp only [Function.update_same]; exact ht)
      exact key t hold.1 (Or.inr hold.2) (fun _ => rfl)
  · rw [Function.update_noteq hbs] at ht
    have hold := h b a t (by simp only [Function.update_noteq hbs]; exact ht)
    refine key t hold.1 (Or.inr hold.2) ?_
    intro hti
    exfalso
    apply hfree
    rw [← hti, hold.2.2]
    refine ⟨by simp, ?_⟩
    intro hc
    exact hbs (Option.some.inj hc)

theorem loadItems_poolsOwned (brushes : BrushId → TableBrush) (self : BrushId)
    (alignment : Fin 7) (children : List XmlItemNode) (st : LoadState)
    (h : World.PoolsOwned ⟨st.item_db, Function.update brushes self st.brush⟩) :
    World.PoolsOwned ⟨(loadItems self alignment children st).2.item_db,
      Function.update brushes self (loadItems self alignment children st).2.brush⟩ := by
  induction children generalizing st with
  | nil => exact h
  | cons sub rest ih =>
    unfold loadItems
    split_ifs with h1 h2 h3 h4
    · exact ih st h
    · exact h
    · exact h
    · exact h
    · exact ih _ (register_poolsOwned brushes st self alignment sub.id sub.chance h2 h4 h)

theorem loadTables_poolsOwned (al : TableAlignment) (brushes : BrushId → TableBrush)
    (self : BrushId) (children : List XmlTableNode) (st : LoadState)
    (h : World.PoolsOwned ⟨st.item_db, Function.update brushes self st.brush⟩) :
    World.PoolsOwned ⟨(loadTables al self children st).2.item_db,
      Function.update brushes self (loadTables al self children st).2.brush⟩ := by
  induction children generalizing st with
  | nil => exact h
  | cons child rest ih =>
    unfold loadTables
    split_ifs with h1 h2
    · exact ih st h
    · exact ih _ h
    · cases hal : alignmentOf al child.align with
      | none => exact ih _ h
      | some alignment =>
        have hi := loadItems_poolsOwned brushes self alignment child.children st h
        simp only
        rcases hres : loadItems self alignment child.children st with ⟨ok, st1⟩
        rw [hres] at hi
        cases ok with
        | false => exact hi
        | true => exact ih st1 hi

/-- A `load` call keeps every pool candidate of every brush claimed by that
brush, whatever the call returns. -/
theorem World.load_poolsOwned (al : TableAlignment) (w : World) (self : BrushId)
    (node : XmlBrushNode) (h : w.PoolsOwned) : (World.load al w self node).2.PoolsOwned := by
  unfold World.load TableBrush.load
  apply loadTables_poolsOwned
  intro b a t ht
  apply h b a t
  by_cases hbs : b = self
  · subst hbs
    simp only [Function.update_same] at ht
    exact ht
  · simp only [Function.update_noteq hbs] at ht
    exact ht

/-- In every process state built by `load` calls, every candidate id in a
brush's pools is non-zero and claimed by that brush. -/
theorem World.Loaded.poolsOwned {al : TableAlignment} {w : World} (h : World.Loaded al w) :
    w.PoolsOwned := by
  induction h with
  | init db =>
    intro b a t ht
    simp [TableBrush.empty] at ht
  | load w self node _ ih => exact World.load_poolsOwned al w self node ih

/-- A non-zero result of the selection loop is the id of a candidate. -/
theorem selectLoop_mem (items : List TableType) (r : Int) (h : selectLoop r items ≠ 0) :
    ∃ t ∈ items, t.item_id = selectLoop r items := by
  induction items generalizing r with
  | nil => exact absurd rfl h
  | cons t l ih =>
    unfold selectLoop at h ⊢
    split_ifs at h ⊢ with hc
    · exact ⟨t, List.mem_cons_self _ _, rfl⟩
    · obtain ⟨s, hs, he⟩ := ih _ h
      exact ⟨s, List.mem_cons_of_mem _ hs, he⟩

/-! ### `draw` -/

/-- Shape of the result of `draw`: the tile after `undraw`, with at most one
object appended, created from a non-zero candidate id of the pool at index 0. -/
theorem draw_items_cases (db : ItemDatabase) (self : BrushId) (brush : TableBrush)
    (random : Int → Int → Int) (tile : Tile) :
    TableBrush.draw db self brush random tile = TableBrush.undraw db self tile ∨
    ∃ t ∈ (brush.table_items 0).items, t.item_id ≠ 0 ∧
      TableBrush.draw db self brush random tile
        = (TableBrush.undraw db self tile).addItem (Item.Create t.item_id) := by
  unfold TableBrush.draw
  simp only
  split_ifs with h1 h2
  · exact Or.inl rfl
  · obtain ⟨t, ht, he⟩ := selectLoop_mem _ _ h2
    refine Or.inr ⟨t, ht, ?_, ?_⟩
    · rw [he]; exact h2
    · rw [he]
  · exact Or.inl rfl

/-- C4. In every process state built by `load` calls, for every brush, every
random source and every tile, `draw` followed by `undraw` with the same brush
gives the same tile as `undraw` alone; the result holds no object owned by the
brush, and on a tile without objects it is the tile without objects again. -/
theorem undraw_draw_eq_undraw (al : TableAlignment) (w : World) (hw : World.Loaded al w)
    (self : BrushId) (random : Int → Int → Int) (tile : Tile) :
    TableBrush.undraw w.item_db self
        (TableBrush.draw w.item_db self (w.brushes self) random tile)
      = TableBrush.undraw w.item_db self tile ∧
    (∀ it ∈ (TableBrush.undraw w.item_db self
        (TableBrush.draw w.item_db self (w.brushes self) random tile)).items,
      it.getTableBrush w.item_db ≠ some self) ∧
    (tile.items = [] →
      (TableBrush.undraw w.item_db self
        (TableBrush.draw w.item_db self (w.brushes self) random tile)).items = []) := by
  have hown := hw.poolsOwned
  have hidem : TableBrush.undraw w.item_db self (TableBrush.undraw w.item_db self tile)
      = TableBrush.undraw w.item_db self tile := by
    simp [TableBrush.undraw, undrawLoop_eq_filter, List.filter_filter]
  have hmain : TableBrush.undraw w.item_db self
        (TableBrush.draw w.item_db self (w.brushes self) random tile)
      = TableBrush.undraw w.item_db self tile := by
    rcases draw_items_cases w.item_db self (w.brushes self) random tile with h | ⟨t, ht, _, h⟩
    · rw [h, hidem]
    · rw [h]
      obtain ⟨_, htab, hbr⟩ := hown self 0 t ht
      have hg : (Item.Create t.item_id).getTableBrush w.item_db = some self := by
        simp [Item.getTableBrush, Item.Create, htab, hbr]
      simp [TableBrush.undraw, Tile.addItem, undrawLoop_eq_filter, List.filter_append,
        List.filter_filter, hg]
  refine ⟨hmain, ?_, ?_⟩
  · rw [hmain]
    intro it hit
    have h : it ∈ tile.items.filter (fun it => decide (it.getTableBrush w.item_db ≠ some self)) := by
      rw [← undrawLoop_eq_filter]; exact hit
    simpa using (List.mem_filter.mp h).2
  · intro he
    rw [hmain]
    simp [TableBrush.undraw, he, undrawLoop]

/-- Instance of C4: brush 3, loaded with one north-end piece of id 4, draws
that piece on the empty tile, and `undraw` empties the tile again. -/
theorem undraw_draw_eq_undraw_witness :
    (TableBrush.draw northOnlyWorld.item_db 3 (northOnlyWorld.brushes 3) lowestRandom
        emptyTile).items = [⟨4, 0⟩] ∧
    TableBrush.undraw northOnlyWorld.item_db 3
        (TableBrush.draw northOnlyWorld.item_db 3 (northOnlyWorld.brushes 3) lowestRandom
          emptyTile) = emptyTile :=
  ⟨by decide,
   (undraw_draw_eq_undraw exampleAlignment northOnlyWorld
      (World.Loaded.load _ 3 northOnlyNode (World.Loaded.init exampleDb)) 3 lowestRandom
      emptyTile).1.trans (by decide)⟩

/-- Which pool `draw` reads depends on the value of `TABLE_ALONE`, which the
translation unit does not fix. With alone at index 6 and north end at index 0,
a brush whose only piece is registered under "north" has an empty pool for
"alone" and `draw` inserts that piece (id 4); with alone at index 0 the same
definition makes `draw` insert nothing. -/
theorem draw_seed_and_alone_index :
    (northOnlyWorld.brushes 3).table_items exampleAlignment.TABLE_ALONE = ⟨0, []⟩ ∧
    (TableBrush.draw northOnlyWorld.item_db 3 (northOnlyWorld.brushes 3) lowestRandom
        emptyTile).items = [⟨4, 0⟩] ∧
    ((World.load aloneFirstAlignment exampleInit 3 northOnlyNode).2.brushes 3).table_items
        aloneFirstAlignment.TABLE_ALONE = ⟨0, []⟩ ∧
    (TableBrush.draw (World.load aloneFirstAlignment exampleInit 3 northOnlyNode).2.item_db 3
        ((World.load aloneFirstAlignment exampleInit 3 northOnlyNode).2.brushes 3) lowestRandom
        emptyTile).items = [] := by
  decide

/-- The pool `draw` reads is the pool at index 0 of `table_items`: when that
pool's `total_chance` is at most zero nothing is inserted, whatever the other
six pools contain, and otherwise the result is the tile after `undraw` with at
most one object appended, whose type id is a non-zero candidate id of the pool
at index 0. -/
theorem draw_seed_from_pool_zero (db : ItemDatabase) (self : BrushId) (brush : TableBrush)
    (random : Int → Int → Int) (tile : Tile) :
    ((brush.table_items 0).total_chance ≤ 0 →
      TableBrush.draw db self brush random tile = TableBrush.undraw db self tile) ∧
    ((TableBrush.draw db self brush random tile).items
        = (TableBrush.undraw db self tile).items ∨
      ∃ t ∈ (brush.table_items 0).items, t.item_id ≠ 0 ∧
        (TableBrush.draw db self brush random tile).items
          = (TableBrush.undraw db self tile).items ++ [Item.Create t.item_id]) := by
  constructor
  · intro h
    simp [TableBrush.draw, h]
  · rcases draw_items_cases db self brush random tile with h | ⟨t, ht, h0, h⟩
    · exact Or.inl (by rw [h])
    · exact Or.inr ⟨t, ht, h0, by rw [h]; rfl⟩

/-- When `TABLE_ALONE` is 0, the pool `draw` reads is the pool `load` fills for
"alone": nothing is inserted when that pool's `total_chance` is at most zero,
and an inserted object has the id of one of its candidates. -/
theorem draw_seed_from_alone_pool_of_zero (al : TableAlignment) (h0 : al.TABLE_ALONE = 0)
    (db : ItemDatabase) (self : BrushId) (brush : TableBrush)
    (random : Int → Int → Int) (tile : Tile) :
    ((brush.table_items al.TABLE_ALONE).total_chance ≤ 0 →
      TableBrush.draw db self brush random tile = TableBrush.undraw db self tile) ∧
    ((TableBrush.draw db self brush random tile).items
        = (TableBrush.undraw db self tile).items ∨
      ∃ t ∈ (brush.table_items al.TABLE_ALONE).items, t.item_id ≠ 0 ∧
        (TableBrush.draw db self brush random tile).items
          = (TableBrush.undraw db self tile).items ++ [Item.Create t.item_id]) := by
  rw [h0]
  constructor
  · intro h
    simp [TableBrush.draw, h]
  · rcases draw_items_cases db self brush random tile with h | ⟨t, ht, hne, h⟩
    · exact Or.inl (by rw [h])
    · exact Or.inr ⟨t, ht, hne, by rw [h]; rfl⟩

/-! ### The neighbour mask -/

/-- Value and bits of the mask assembled from eight booleans. -/
theorem tiledataLoop_bits :
    ∀ b0 b1 b2 b3 b4 b5 b6 b7 : Bool,
      tiledataLoop [b0, b1, b2, b3, b4, b5, b6, b7]
        = (if b0 then 1 else 0) + (if b1 then 2 else 0) + (if b2 then 4 else 0)
          + (if b3 then 8 else 0) + (if b4 then 16 else 0) + (if b5 then 32 else 0)
          + (if b6 then 64 else 0) + (if b7 then 128 else 0) ∧
      tiledataLoop [b0, b1, b2, b3, b4, b5, b6, b7] < 256 ∧
      ∀ i : Fin 8, (tiledataLoop [b0, b1, b2, b3, b4, b5, b6, b7]).testBit i.val
        = [b0, b1, b2, b3, b4, b5, b6, b7].getD i.val false := by
  decide

theorem referenceBit_eq (db : ItemDatabase) (map : BaseMap) (tb : BrushId) (x y z : Int)
    (i : Nat) :
    referenceBit db map tb x y z i
      = (decide (0 ≤ x + (neighbourOffsets.getD i (0, 0)).1)
          && decide (0 ≤ y + (neighbourOffsets.getD i (0, 0)).2)
          && hasMatchingTableBrushAtTile db map tb (x + (neighbourOffsets.getD i (0, 0)).1)
              (y + (neighbourOffsets.getD i (0, 0)).2) z) := by
  rfl

/-- The eight reference bits, in order, for a position with non-negative
coordinates are the entries of the array the case split fills. -/
theorem neighbours_eq_referenceBits (db : ItemDatabase) (map : BaseMap) (tb : BrushId)
    (x y z : Int) (hx : 0 ≤ x) (hy : 0 ≤ y) :
    neighbours db map tb x y z
      = (List.range 8).map (fun i => referenceBit db map tb x y z i) := by
  have hr : List.range 8 = [0, 1, 2, 3, 4, 5, 6, 7] := by decide
  rw [hr]
  simp only [List.map, referenceBit_eq, neighbourOffsets, List.getD_cons_zero,
    List.getD_cons_succ]
  unfold neighbours
  have e1 : x + -1 = x - 1 := by ring
  have e2 : y + -1 = y - 1 := by ring
  simp only [add_zero, e1, e2]
  have p1 : 0 ≤ x + 1 := by omega
  have p2 : 0 ≤ y + 1 := by omega
  by_cases h0 : x = 0
  · by_cases h1 : y = 0
    · subst h0; subst h1
      simp
    · have q : 1 ≤ y := by omega
      subst h0
      simp [h1, q, p2, hy]
  · have qx : 1 ≤ x := by omega
    by_cases h1 : y = 0
    · subst h1
      simp [h0, qx, p1, hx]
    · have q : 1 ≤ y := by omega
      simp [h0, h1, q, qx, p1, p2, hx, hy]

/-- C6. For every position with `x ≥ 0` and `y ≥ 0` and every brush (the brush
of a table object on the tile), the mask computed by the four-way case split
equals the reference mask: it is below 256 and its bit `i`, for `i` from 0 to
7, is set iff the neighbour at offset `i` has non-negative coordinates, the
map has a tile there and that tile contains an object of the same brush. -/
theorem tiledata_eq_referenceMask (db : ItemDatabase) (map : BaseMap) (table_brush : BrushId)
    (x y z : Int) (hx : 0 ≤ x) (hy : 0 ≤ y) :
    tiledataLoop (neighbours db map table_brush x y z)
      = referenceMask db map table_brush x y z ∧
    tiledataLoop (neighbours db map table_brush x y z) < 256 ∧
    ∀ i, i < 8 →
      (tiledataLoop (neighbours db map table_brush x y z)).testBit i
        = referenceBit db map table_brush x y z i := by
  rw [neighbours_eq_referenceBits db map table_brush x y z hx hy]
  have hr : List.range 8 = [0, 1, 2, 3, 4, 5, 6, 7] := by decide
  simp only [referenceMask, hr, List.map]
  obtain ⟨hv, hlt, hbit⟩ := tiledataLoop_bits
    (referenceBit db map table_brush x y z 0) (referenceBit db map table_brush x y z 1)
    (referenceBit db map table_brush x y z 2) (referenceBit db map table_brush x y z 3)
    (referenceBit db map table_brush x y z 4) (referenceBit db map table_brush x y z 5)
    (referenceBit db map table_brush x y z 6) (referenceBit db map table_brush x y z 7)
  refine ⟨?_, hlt, ?_⟩
  · rw [hv]
    simp [List.sum_cons]
    ring
  · intro i hi
    have h := hbit ⟨i, hi⟩
    simp only at h
    rw [h]
    interval_cases i <;> rfl

/-- Instance of C6: at (0, 0), with same-brush objects at (1, 0), (0, 1) and
(1, 1) and nowhere else, the mask has exactly the bits E, S and SE: 208. -/
theorem tiledata_eq_referenceMask_witness :
    tiledataLoop (neighbours cornerDb cornerMap 1 0 0 7) = 208 ∧
    referenceMask cornerDb cornerMap 1 0 0 7 = 208 :=
  ⟨by decide,
   (tiledata_eq_referenceMask cornerDb cornerMap 1 0 0 7 (by decide) (by decide)).1.symm.trans
     (by decide)⟩

/-! ### `doTables` -/

theorem twoBrushWorld_pools :
    (∀ c : Fin 7, ((twoBrushWorld.brushes 1).table_items c).total_chance = 0) ∧
    (∀ c : Fin 7, (twoBrushWorld.brushes 2).table_items c = ⟨1, [⟨2, 1⟩, ⟨3, 0⟩]⟩) ∧
    Item.getTableBrush twoBrushWorld.item_db ⟨1, 0⟩ = some 1 ∧
    Item.getTableBrush twoBrushWorld.item_db ⟨3, 0⟩ = some 2 := by
  decide

/-- C7 fails on the code: in `twoBrushWorld` every pool of brush 2 has total
weight 1 and yields id 2 for the drawn value 1. Alone on its tile, the object
of brush 2 with id 3 is retiled to id 2; preceded on the tile by an
object of brush 1, whose pools have total weight 0, it keeps id 3, whatever
the classification table and the random source are: the `return` of line 252
ends the loop over the objects of the tile. -/
theorem doTables_stops_at_zero_total (table_types : Nat → Fin 7)
    (random : Nat → Int → Int → Int) :
    (TableBrush.doTables twoBrushWorld table_types emptyMap random twoTablesTile).items
      = [⟨1, 0⟩, ⟨3, 0⟩] ∧
    (TableBrush.doTables twoBrushWorld table_types emptyMap lowestRandomSeq oneTableTile).items
      = [⟨2, 0⟩] := by
  obtain ⟨h1, h2, g1, g2⟩ := twoBrushWorld_pools
  have ht1 : twoTablesTile.hasTable twoBrushWorld.item_db = true := by decide
  have ht2 : oneTableTile.hasTable twoBrushWorld.item_db = true := by decide
  constructor
  · unfold TableBrush.doTables
    rw [if_neg (by simp [ht1])]
    simp [twoTablesTile, doTablesLoop, g1, h1]
  · unfold TableBrush.doTables
    rw [if_neg (by simp [ht2])]
    simp [oneTableTile, doTablesLoop, g2, h2, lowestRandomSeq, selectLoop, Item.setID]

theorem doTablesLoop_length (w : World) (table_types : Nat → Fin 7) (map : BaseMap)
    (random : Nat → Int → Int → Int) (x y z : Int) (k : Nat) (items : List Item) :
    (doTablesLoop w table_types map random x y z k items).length = items.length := by
  induction items generalizing k with
  | nil => rfl
  | cons item rest ih =>
    unfold doTablesLoop
    split
    · simp [ih]
    · simp only
      split_ifs <;> simp [ih]

theorem doTablesLoop_attrs (w : World) (table_types : Nat → Fin 7) (map : BaseMap)
    (random : Nat → Int → Int → Int) (x y z : Int) (k : Nat) (items : List Item) :
    (doTablesLoop w table_types map random x y z k items).map Item.attrs
      = items.map Item.attrs := by
  induction items generalizing k with
  | nil => rfl
  | cons item rest ih =>
    unfold doTablesLoop
    split
    · simp [ih]
    · simp only
      split_ifs <;> simp [ih, Item.setID]

theorem doTablesLoop_keeps_nontable (w : World) (table_types : Nat → Fin 7) (map : BaseMap)
    (random : Nat → Int → Int → Int) (x y z : Int) (k : Nat) (items : List Item)
    (j : Nat) (item : Item) (hj : items[j]? = some item)
    (hb : item.getTableBrush w.item_db = none) :
    (doTablesLoop w table_types map random x y z k items)[j]? = some item := by
  induction items generalizing k j with
  | nil => simp at hj
  | cons head rest ih =>
    unfold doTablesLoop
    cases j with
    | zero =>
      simp only [List.getElem?_cons_zero, Option.some.injEq] at hj
      subst hj
      simp [hb]
    | succ j =>
      simp only [List.getElem?_cons_succ] at hj
      split
      · simpa using ih k j hj
      · simp only
        split_ifs
        · simpa using hj
        · simpa using ih (k + 1) j hj
        · simpa using ih (k + 1) j hj

theorem doTablesLoop_keeps_zero_total (w : World) (table_types : Nat → Fin 7) (map : BaseMap)
    (random : Nat → Int → Int → Int) (x y z : Int) (k : Nat) (items : List Item)
    (j : Nat) (item : Item) (tb : BrushId) (hj : items[j]? = some item)
    (hb : item.getTableBrush w.item_db = some tb)
    (h0 : ((w.brushes tb).table_items
      (resolveBorderType w.item_db table_types map tb x y z)).total_chance = 0) :
    (doTablesLoop w table_types map random x y z k items)[j]? = some item := by
  induction items generalizing k j with
  | nil => simp at hj
  | cons head rest ih =>
    unfold doTablesLoop
    cases j with
    | zero =>
      simp only [List.getElem?_cons_zero, Option.some.injEq] at hj
      subst hj
      simp [hb, h0]
    | succ j =>
      simp only [List.getElem?_cons_succ] at hj
      split
      · simpa using ih k j hj
      · simp only
        split_ifs
        · simpa using hj
        · simpa using ih (k + 1) j hj
        · simpa using ih (k + 1) j hj

/-- C8. For every tile and every table object on it (at position `j`, of brush
`tb`) whose brush's pool for the resolved border type has `total_chance` zero,
the object after `doTables` is the object before: its type identifier is
unchanged. -/
theorem doTables_zero_total_keeps_id (w : World) (table_types : Nat → Fin 7) (map : BaseMap)
    (random : Nat → Int → Int → Int) (tile : Tile) (j : Nat) (item : Item) (tb : BrushId)
    (hj : tile.items[j]? = some item) (hb : item.getTableBrush w.item_db = some tb)
    (h0 : ((w.brushes tb).table_items
      (resolveBorderType w.item_db table_types map tb tile.x tile.y tile.z)).total_chance = 0) :
    (TableBrush.doTables w table_types map random tile).items[j]? = some item ∧
    ((TableBrush.doTables w table_types map random tile).items[j]?).map Item.id
      = some item.id := by
  have h : (TableBrush.doTables w table_types map random tile).items[j]? = some item := by
    unfold TableBrush.doTables
    split_ifs
    · exact hj
    · exact doTablesLoop_keeps_zero_total w table_types map random _ _ _ 0 _ j item tb hj hb h0
  exact ⟨h, by rw [h]; rfl⟩

/-- Instance of C8: on `mixedTile` the object of brush 2 is retiled from id 3
to id 2, and the object of brush 1, whose pools have total weight zero, keeps
id 1. -/
theorem doTables_zero_total_keeps_id_witness :
    (TableBrush.doTables twoBrushWorld constantTypes emptyMap lowestRandomSeq mixedTile).items
      = [⟨2, 0⟩, ⟨9, 4⟩, ⟨1, 0⟩] ∧
    ((TableBrush.doTables twoBrushWorld constantTypes emptyMap lowestRandomSeq
        mixedTile).items[2]?).map Item.id = some 1 :=
  ⟨by decide,
   (doTables_zero_total_keeps_id twoBrushWorld constantTypes emptyMap lowestRandomSeq mixedTile
      2 ⟨1, 0⟩ 1 (by decide) (by decide) (by decide)).2⟩

theorem doTablesOnMap_other (w : World) (table_types : Nat → Fin 7)
    (random : Nat → Int → Int → Int) (map : BaseMap) (x y z a b c : Int)
    (hne : ¬(a = x ∧ b = y ∧ c = z)) :
    doTablesOnMap w table_types random map x y z a b c = map a b c := by
  unfold doTablesOnMap
  cases hm : map x y z with
  | none => rfl
  | some t => simp [BaseMap.setTile, hne]

/-- C9. `doTables` is a re-skin in place: the number and order of the objects
of the tile are unchanged (same length, same `attrs` position by position),
objects without a table brush are unchanged, the position of the tile is
unchanged, no other tile of the map changes, and on a tile without a table
object the call changes nothing at all. -/
theorem doTables_reskin_in_place (w : World) (table_types : Nat → Fin 7) (map : BaseMap)
    (random : Nat → Int → Int → Int) (tile : Tile) :
    (TableBrush.doTables w table_types map random tile).items.length = tile.items.length ∧
    (TableBrush.doTables w table_types map random tile).items.map Item.attrs
      = tile.items.map Item.attrs ∧
    (∀ (j : Nat) (item : Item), tile.items[j]? = some item →
      item.getTableBrush w.item_db = none →
      (TableBrush.doTables w table_types map random tile).items[j]? = some item) ∧
    ((TableBrush.doTables w table_types map random tile).x = tile.x ∧
      (TableBrush.doTables w table_types map random tile).y = tile.y ∧
      (TableBrush.doTables w table_types map random tile).z = tile.z) ∧
    (∀ x y z a b c : Int, ¬(a = x ∧ b = y ∧ c = z) →
      doTablesOnMap w table_types random map x y z a b c = map a b c) ∧
    (tile.hasTable w.item_db = false →
      TableBrush.doTables w table_types map random tile = tile) ∧
    (∀ x y z : Int, map x y z = some tile → tile.hasTable w.item_db = false →
      doTablesOnMap w table_types random map x y z = map) := by
  have hnoop : tile.hasTable w.item_db = false →
      TableBrush.doTables w table_types map random tile = tile := by
    intro h
    simp [TableBrush.doTables, h]
  refine ⟨?_, ?_, ?_, ?_, ?_, hnoop, ?_⟩
  · unfold TableBrush.doTables
    split_ifs
    · rfl
    · exact doTablesLoop_length _ _ _ _ _ _ _ _ _
  · unfold TableBrush.doTables
    split_ifs
    · rfl
    · exact doTablesLoop_attrs _ _ _ _ _ _ _ _ _
  · intro j item hj hb
    unfold TableBrush.doTables
    split_ifs
    · exact hj
    · exact doTablesLoop_keeps_nontable _ _ _ _ _ _ _ _ _ j item hj hb
  · unfold TableBrush.doTables
    split_ifs <;> exact ⟨rfl, rfl, rfl⟩
  · intro x y z a b c hne
    exact doTablesOnMap_other w table_types random map x y z a b c hne
  · intro x y z hm ht
    unfold doTablesOnMap
    rw [hm]
    simp only [hnoop ht]
    funext a b c
    unfold BaseMap.setTile
    split_ifs with h
    · obtain ⟨rfl, rfl, rfl⟩ := h
      exact hm.symm
    · rfl

/-! ### Idempotence of `doTables` -/

theorem hasMatchingTableBrushAtTile_congr (db : ItemDatabase) (map map2 : BaseMap)
    (tb : BrushId) (a b c : Int) (h : map2 a b c = map a b c) :
    hasMatchingTableBrushAtTile db map2 tb a b c
      = hasMatchingTableBrushAtTile db map tb a b c := by
  unfold hasMatchingTableBrushAtTile
  rw [h]

/-- The neighbour array of a tile does not read the map at the tile's own
position. -/
theorem neighbours_congr (db : ItemDatabase) (map map2 : BaseMap) (tb : BrushId)
    (x y z : Int)
    (h : ∀ a b c, ¬(a = x ∧ b = y ∧ c = z) → map2 a b c = map a b c) :
    neighbours db map2 tb x y z = neighbours db map tb x y z := by
  have key : ∀ a b, ¬(a = x ∧ b = y) →
      hasMatchingTableBrushAtTile db map2 tb a b z
        = hasMatchingTableBrushAtTile db map tb a b z := by
    intro a b hab
    apply hasMatchingTableBrushAtTile_congr
    apply h
    rintro ⟨h1, h2, _⟩
    exact hab ⟨h1, h2⟩
  have k0 := key (x - 1) (y - 1) (by omega)
  have k1 := key x (y - 1) (by omega)
  have k2 := key (x + 1) (y - 1) (by omega)
  have k3 := key (x - 1) y (by omega)
  have k4 := key (x + 1) y (by omega)
  have k5 := key (x - 1) (y + 1) (by omega)
  have k6 := key x (y + 1) (by omega)
  have k7 := key (x + 1) (y + 1) (by omega)
  unfold neighbours
  rw [k0, k1, k2, k3, k4, k5, k6, k7]

theorem resolveBorderType_congr (db : ItemDatabase) (table_types : Nat → Fin 7)
    (map map2 : BaseMap) (tb : BrushId) (x y z : Int)
    (h : ∀ a b c, ¬(a = x ∧ b = y ∧ c = z) → map2 a b c = map a b c) :
    resolveBorderType db table_types map2 tb x y z
      = resolveBorderType db table_types map tb x y z := by
  unfold resolveBorderType
  rw [neighbours_congr db map map2 tb x y z h]

theorem doTablesLoop_congr (w : World) (table_types : Nat → Fin 7) (map map2 : BaseMap)
    (random : Nat → Int → Int → Int) (x y z : Int)
    (h : ∀ tb, resolveBorderType w.item_db table_types map2 tb x y z
      = resolveBorderType w.item_db table_types map tb x y z)
    (k : Nat) (items : List Item) :
    doTablesLoop w table_types map2 random x y z k items
      = doTablesLoop w table_types map random x y z k items := by
  induction items generalizing k with
  | nil => rfl
  | cons item rest ih =>
    unfold doTablesLoop
    cases hb : item.getTableBrush w.item_db with
    | none => simp [ih]
    | some tb => simp [h, ih]

/-- An object retiled from a pool of its own brush still resolves to that
brush when every pool candidate is claimed by its brush. -/
theorem getTableBrush_retiled (w : World) (hown : w.PoolsOwned) (item : Item) (tb : BrushId)
    (hb : item.getTableBrush w.item_db = some tb) (bt : Fin 7) (chance : Int) :
    Item.getTableBrush w.item_db
      (if selectLoop chance ((w.brushes tb).table_items bt).items ≠ 0
        then item.setID (selectLoop chance ((w.brushes tb).table_items bt).items)
        else item) = some tb := by
  split_ifs with h
  · obtain ⟨t, ht, he⟩ := selectLoop_mem _ _ h
    obtain ⟨_, htab, hbr⟩ := hown tb bt t ht
    rw [← he]
    simp [Item.getTableBrush, Item.setID, htab, hbr]
  · exact hb

theorem doTablesLoop_cons_retile (w : World) (table_types : Nat → Fin 7) (map : BaseMap)
    (random : Nat → Int → Int → Int) (x y z : Int) (k : Nat) (item : Item)
    (rest : List Item) (tb : BrushId) (hb : item.getTableBrush w.item_db = some tb)
    (h0 : ¬((w.brushes tb).table_items
      (resolveBorderType w.item_db table_types map tb x y z)).total_chance = 0) :
    doTablesLoop w table_types map random x y z k (item :: rest)
      = (if selectLoop (random k 1 ((w.brushes tb).table_items
            (resolveBorderType w.item_db table_types map tb x y z)).total_chance)
            ((w.brushes tb).table_items
              (resolveBorderType w.item_db table_types map tb x y z)).items ≠ 0
          then item.setID (selectLoop (random k 1 ((w.brushes tb).table_items
            (resolveBorderType w.item_db table_types map tb x y z)).total_chance)
            ((w.brushes tb).table_items
              (resolveBorderType w.item_db table_types map tb x y z)).items)
          else item)
        :: doTablesLoop w table_types map random x y z (k + 1) rest := by
  rw [doTablesLoop]
  simp [hb, h0]

theorem doTablesLoop_brushes (w : World) (hown : w.PoolsOwned) (table_types : Nat → Fin 7)
    (map : BaseMap) (random : Nat → Int → Int → Int) (x y z : Int) (k : Nat)
    (items : List Item) :
    (doTablesLoop w table_types map random x y z k items).map
        (fun it => it.getTableBrush w.item_db)
      = items.map (fun it => it.getTableBrush w.item_db) := by
  induction items generalizing k with
  | nil => rfl
  | cons item rest ih =>
    cases hb : item.getTableBrush w.item_db with
    | none =>
      rw [doTablesLoop]
      simp [ih, hb]
    | some tb =>
      by_cases h0 : ((w.brushes tb).table_items
          (resolveBorderType w.item_db table_types map tb x y z)).total_chance = 0
      · rw [doTablesLoop]
        simp [hb, h0]
      · rw [doTablesLoop_cons_retile w table_types map random x y z k item rest tb hb h0]
        simp only [List.map_cons, ih]
        rw [getTableBrush_retiled w hown item tb hb, hb]

theorem doTablesLoop_idempotent (w : World) (hown : w.PoolsOwned) (table_types : Nat → Fin 7)
    (map : BaseMap) (random : Nat → Int → Int → Int) (x y z : Int) (k : Nat)
    (items : List Item) :
    doTablesLoop w table_types map random x y z k
        (doTablesLoop w table_types map random x y z k items)
      = doTablesLoop w table_types map random x y z k items := by
  induction items generalizing k with
  | nil => rfl
  | cons item rest ih =>
    cases hb : item.getTableBrush w.item_db with
    | none =>
      have e : doTablesLoop w table_types map random x y z k (item :: rest)
          = item :: doTablesLoop w table_types map random x y z k rest := by
        rw [doTablesLoop]; simp [hb]
      rw [e, doTablesLoop]
      simp [hb, ih]
    | some tb =>
      by_cases h0 : ((w.brushes tb).table_items
          (resolveBorderType w.item_db table_types map tb x y z)).total_chance = 0
      · have e : doTablesLoop w table_types map random x y z k (item :: rest)
            = item :: rest := by
          rw [doTablesLoop]; simp [hb, h0]
        rw [e, e]
      · rw [doTablesLoop_cons_retile w table_types map random x y z k item rest tb hb h0,
          doTablesLoop_cons_retile w table_types map random x y z k _ _ tb
            (getTableBrush_retiled w hown item tb hb _ _) h0, ih]
        congr 1
        split_ifs <;> simp [Item.setID]

/-- C10. In every process state built by `load` calls, let the tile be retiled
once against `map` and then again against `map2`, a map that differs from `map`
at most at the tile's own position (the same map, or the map holding the
retiled tile). Then every object of the tile resolves to the same brush and the
same border type in both calls, and, with the same random source, the second
call yields the same type identifiers as the first: it changes nothing. -/
theorem doTables_idempotent (al : TableAlignment) (w : World) (hw : World.Loaded al w)
    (table_types : Nat → Fin 7) (map map2 : BaseMap) (random : Nat → Int → Int → Int)
    (tile : Tile)
    (hmap : ∀ a b c, ¬(a = tile.x ∧ b = tile.y ∧ c = tile.z) → map2 a b c = map a b c) :
    (TableBrush.doTables w table_types map random tile).items.map
        (fun it => (it.getTableBrush w.item_db).map
          (fun tb => resolveBorderType w.item_db table_types map2 tb tile.x tile.y tile.z))
      = tile.items.map
        (fun it => (it.getTableBrush w.item_db).map
          (fun tb => resolveBorderType w.item_db table_types map tb tile.x tile.y tile.z)) ∧
    TableBrush.doTables w table_types map2 random
        (TableBrush.doTables w table_types map random tile)
      = TableBrush.doTables w table_types map random tile := by
  have hown := hw.poolsOwned
  have hres : ∀ tb, resolveBorderType w.item_db table_types map2 tb tile.x tile.y tile.z
      = resolveBorderType w.item_db table_types map tb tile.x tile.y tile.z :=
    fun tb => resolveBorderType_congr w.item_db table_types map map2 tb _ _ _ hmap
  constructor
  · have hb : (TableBrush.doTables w table_types map random tile).items.map
          (fun it => it.getTableBrush w.item_db)
        = tile.items.map (fun it => it.getTableBrush w.item_db) := by
      unfold TableBrush.doTables
      split_ifs
      · rfl
      · exact doTablesLoop_brushes w hown _ _ _ _ _ _ _ _
    have hfun : (fun it : Item => (it.getTableBrush w.item_db).map
          (fun tb => resolveBorderType w.item_db table_types map2 tb tile.x tile.y tile.z))
        = (fun o : Option BrushId => o.map
          (fun tb => resolveBorderType w.item_db table_types map tb tile.x tile.y tile.z))
          ∘ (fun it : Item => it.getTableBrush w.item_db) := by
      funext it
      simp [hres]
    have hfun2 : (fun it : Item => (it.getTableBrush w.item_db).map
          (fun tb => resolveBorderType w.item_db table_types map tb tile.x tile.y tile.z))
        = (fun o : Option BrushId => o.map
          (fun tb => resolveBorderType w.item_db table_types map tb tile.x tile.y tile.z))
          ∘ (fun it : Item => it.getTableBrush w.item_db) := by
      funext it
      simp
    rw [hfun, hfun2, ← List.map_map, ← List.map_map, hb]
  · by_cases ht : tile.hasTable w.item_db = false
    · have e : TableBrush.doTables w table_types map random tile = tile := by
        simp [TableBrush.doTables, ht]
      rw [e]
      simp [TableBrush.doTables, ht]
    · have e : TableBrush.doTables w table_types map random tile
          = { tile with
              items := doTablesLoop w table_types map random tile.x tile.y tile.z 0
                tile.items } := by
        simp [TableBrush.doTables, ht]
      rw [e]
      unfold TableBrush.doTables
      split_ifs
      · rfl
      · simp only
        rw [doTablesLoop_congr w table_types map map2 random _ _ _ hres,
          doTablesLoop_idempotent w hown]

/-- Instance of C10: `mixedTile`, retiled in `twoBrushWorld` against the map
that holds it and retiled again against the map that holds the result, has the
objects of ids 2, 9 and 1 after the first call and after the second. -/
theorem doTables_idempotent_witness :
    (TableBrush.doTables twoBrushWorld constantTypes mixedMap lowestRandomSeq mixedTile).items
      = [⟨2, 0⟩, ⟨9, 4⟩, ⟨1, 0⟩] ∧
    TableBrush.doTables twoBrushWorld constantTypes
        (doTablesOnMap twoBrushWorld constantTypes lowestRandomSeq mixedMap 5 5 7)
        lowestRandomSeq
        (TableBrush.doTables twoBrushWorld constantTypes mixedMap lowestRandomSeq mixedTile)
      = TableBrush.doTables twoBrushWorld constantTypes mixedMap lowestRandomSeq mixedTile :=
  ⟨by decide,
   (doTables_idempotent exampleAlignment twoBrushWorld
      (World.Loaded.load _ 2 allAlignmentsNode
        (World.Loaded.load _ 1 zeroChanceNode (World.Loaded.init exampleDb)))
      constantTypes mixedMap
      (doTablesOnMap twoBrushWorld constantTypes lowestRandomSeq mixedMap 5 5 7)
      lowestRandomSeq mixedTile
      (fun a b c h =>
        doTablesOnMap_other twoBrushWorld constantTypes lowestRandomSeq mixedMap 5 5 7 a b c
          h)).2⟩

/-! ### Induction over the steps of `load` -/

/-- A property of the load state that survives a pushed warning and every
registration the inner loop performs holds after the inner loop. -/
theorem loadItems_induct (P : LoadState → Prop) (self : BrushId) (alignment : Fin 7)
    (items : List XmlItemNode)
    (hwarn : ∀ st msg, P st → P (st.warn msg))
    (hreg : ∀ st sub, sub ∈ items → P st → sub.id ≠ 0 → (st.item_db sub.id).id ≠ 0 →
      ¬((st.item_db sub.id).brush ≠ none ∧ (st.item_db sub.id).brush ≠ some self) →
      P (st.register self alignment sub.id sub.chance))
    (st : LoadState) (h : P st) : P (loadItems self alignment items st).2 := by
  induction items generalizing st with
  | nil => exact h
  | cons sub rest ih =>
    have hrest : ∀ st s, s ∈ rest → P st → s.id ≠ 0 → (st.item_db s.id).id ≠ 0 →
        ¬((st.item_db s.id).brush ≠ none ∧ (st.item_db s.id).brush ≠ some self) →
        P (st.register self alignment s.id s.chance) :=
      fun st s hs => hreg st s (List.mem_cons_of_mem _ hs)
    unfold loadItems
    split_ifs with h1 h2 h3 h4
    · exact ih hrest st h
    · exact hwarn _ _ h
    · exact hwarn _ _ h
    · exact hwarn _ _ h
    · exact ih hrest _ (hreg st sub (List.mem_cons_self _ _) h h2 h3 h4)

/-- The same for the outer loop. -/
theorem loadTables_induct (P : LoadState → Prop) (al : TableAlignment) (self : BrushId)
    (tables : List XmlTableNode)
    (hwarn : ∀ st msg, P st → P (st.warn msg))
    (hreg : ∀ st tbl sub (alignment : Fin 7), tbl ∈ tables → sub ∈ tbl.children →
      alignmentOf al tbl.align = some alignment → P st →
      sub.id ≠ 0 → (st.item_db sub.id).id ≠ 0 →
      ¬((st.item_db sub.id).brush ≠ none ∧ (st.item_db sub.id).brush ≠ some self) →
      P (st.register self alignment sub.id sub.chance))
    (st : LoadState) (h : P st) : P (loadTables al self tables st).2 := by
  induction tables generalizing st with
  | nil => exact h
  | cons child rest ih =>
    have hrest : ∀ st tbl sub (alignment : Fin 7), tbl ∈ rest → sub ∈ tbl.children →
        alignmentOf al tbl.align = some alignment → P st →
        sub.id ≠ 0 → (st.item_db sub.id).id ≠ 0 →
        ¬((st.item_db sub.id).brush ≠ none ∧ (st.item_db sub.id).brush ≠ some self) →
        P (st.register self alignment sub.id sub.chance) :=
      fun st tbl sub a ht => hreg st tbl sub a (List.mem_cons_of_mem _ ht)
    unfold loadTables
    split_ifs with h1 h2
    · exact ih hrest st h
    · exact ih hrest _ (hwarn _ _ h)
    · cases hal : alignmentOf al child.align with
      | none => exact ih hrest _ (hwarn _ _ h)
      | some alignment =>
        have hi := loadItems_induct P self alignment child.children hwarn
          (fun st sub hs => hreg st child sub alignment (List.mem_cons_self _ _) hs hal) st h
        simp only
        rcases hres : loadItems self alignment child.children st with ⟨ok, st1⟩
        rw [hres] at hi
        cases ok with
        | false => exact hi
        | true => exact ih hrest st1 hi

/-- The same for `load`, which first sets `look_id`. -/
theorem load_induct (P : LoadState → Prop) (al : TableAlignment) (self : BrushId)
    (node : XmlBrushNode)
    (hlook : ∀ st l, P st → P { st with brush := { st.brush with look_id := l } })
    (hwarn : ∀ st msg, P st → P (st.warn msg))
    (hreg : ∀ st tbl sub (alignment : Fin 7), tbl ∈ node.children → sub ∈ tbl.children →
      alignmentOf al tbl.align = some alignment → P st →
      sub.id ≠ 0 → (st.item_db sub.id).id ≠ 0 →
      ¬((st.item_db sub.id).brush ≠ none ∧ (st.item_db sub.id).brush ≠ some self) →
      P (st.register self alignment sub.id sub.chance))
    (st : LoadState) (h : P st) : P (TableBrush.load al self node st).2 := by
  unfold TableBrush.load
  exact loadTables_induct P al self node.children hwarn hreg _ (hlook st _ h)

/-! ### What a registration does to the item database and the pools -/

theorem register_item_db (st : LoadState) (self : BrushId) (alignment : Fin 7) (id : Nat)
    (chance : Int) (i : Nat) :
    (st.register self alignment id chance).item_db i
      = if i = id then { st.item_db id with isTable := true, brush := some self }
        else st.item_db i := by
  by_cases h : i = id
  · subst h
    simp [LoadState.register]
  · simp [LoadState.register, Function.update_noteq h, h]

theorem register_item_db_id (st : LoadState) (self : BrushId) (alignment : Fin 7) (id : Nat)
    (chance : Int) (i : Nat) :
    ((st.register self alignment id chance).item_db i).id = (st.item_db i).id := by
  rw [register_item_db]
  split_ifs with h
  · subst h; rfl
  · rfl

theorem register_pool (st : LoadState) (self : BrushId) (alignment : Fin 7) (id : Nat)
    (chance : Int) (a : Fin 7) :
    (st.register self alignment id chance).brush.table_items a
      = if a = alignment then
          { total_chance := int32 ((st.brush.table_items alignment).total_chance + chance)
            items := (st.brush.table_items alignment).items ++ [⟨id, chance⟩] }
        else st.brush.table_items a := by
  by_cases h : a = alignment
  · subst h
    simp [LoadState.register]
  · simp [LoadState.register, Function.update_noteq h, h]

theorem register_warnings (st : LoadState) (self : BrushId) (alignment : Fin 7) (id : Nat)
    (chance : Int) :
    (st.register self alignment id chance).warnings = st.warnings := rfl

/-! ### `total_chance` is the sum of the chances, wrapped to 32 bits -/

theorem int32_add_int32 (a b : Int) : int32 (int32 a + b) = int32 (a + b) := by
  unfold int32
  omega

theorem int32_of_range (v : Int) (h1 : -2147483648 ≤ v) (h2 : v ≤ 2147483647) :
    int32 v = v := by
  unfold int32
  omega

theorem int32_le_self (v : Int) (h : 0 ≤ v) : int32 v ≤ v := by
  unfold int32
  omega

/-- A pool whose total is the wrapped sum has the exact sum as total when the
sum is representable in 32 bits. -/
theorem total_exact_of_wrapped (tn : TableNode)
    (h : tn.total_chance = int32 (sumChance tn.items)) :
    tn.total_chance = int32 (sumChance tn.items) ∧
    (-2147483648 ≤ sumChance tn.items → sumChance tn.items ≤ 2147483647 →
      tn.total_chance = sumChance tn.items) :=
  ⟨h, fun h1 h2 => by rw [h, int32_of_range _ h1 h2]⟩

theorem register_totalsWrapped (st : LoadState) (self : BrushId) (alignment : Fin 7) (id : Nat)
    (chance : Int) (h : st.brush.TotalsWrapped) :
    (st.register self alignment id chance).brush.TotalsWrapped := by
  intro a
  rw [register_pool]
  split_ifs with ha
  · simp only [sumChance_append, sumChance_cons, sumChance_nil]
    rw [h alignment, int32_add_int32, add_zero]
  · exact h a

/-- A `load` call keeps `total_chance` equal to the wrapped sum of the chances
in every pool of the brush, whatever it returns. -/
theorem load_totalsWrapped (al : TableAlignment) (self : BrushId) (node : XmlBrushNode)
    (st : LoadState) (h : st.brush.TotalsWrapped) :
    (TableBrush.load al self node st).2.brush.TotalsWrapped :=
  load_induct (fun st => st.brush.TotalsWrapped) al self node
    (fun _ _ h => h) (fun _ _ h => h)
    (fun st _ sub a _ _ _ h _ _ _ => register_totalsWrapped st self a sub.id sub.chance h) st h

theorem World.load_keeps_totalsWrapped (al : TableAlignment) (w : World) (self : BrushId)
    (node : XmlBrushNode) (h : ∀ b, (w.brushes b).TotalsWrapped) (b : BrushId) :
    ((World.load al w self node).2.brushes b).TotalsWrapped := by
  unfold World.load
  simp only
  by_cases hb : b = self
  · subst hb
    rw [Function.update_same]
    exact Rme.load_totalsWrapped al b node _ (h b)
  · rw [Function.update_noteq hb]
    exact h b

theorem World.Loaded.totalsWrapped {al : TableAlignment} {w : World} (h : World.Loaded al w)
    (b : BrushId) : (w.brushes b).TotalsWrapped := by
  induction h generalizing b with
  | init db =>
    intro a
    simp [TableBrush.empty, sumChance, int32]
  | load w self node _ ih => exact World.load_keeps_totalsWrapped al w self node ih b

/-! ### Candidate ids are known to the item database -/

theorem World.load_poolsKnown (al : TableAlignment) (w : World) (self : BrushId)
    (node : XmlBrushNode) (h : w.PoolsKnown) : (World.load al w self node).2.PoolsKnown := by
  unfold World.load
  simp only
  refine load_induct
    (fun st => World.PoolsKnown ⟨st.item_db, Function.update w.brushes self st.brush⟩)
    al self node ?_ ?_ ?_ ⟨w.item_db, w.brushes self, []⟩ ?_
  · intro st l hP b a t ht
    apply hP b a t
    by_cases hb : b = self
    · subst hb
      simp only [Function.update_same] at ht ⊢
      exact ht
    · simp only [Function.update_noteq hb] at ht ⊢
      exact ht
  · intro st msg hP
    exact hP
  · intro st tbl sub alignment _ _ _ hP h0 hk _ b a t ht
    simp only at ht ⊢
    rw [register_item_db_id]
    by_cases hb : b = self
    · subst hb
      simp only [Function.update_same] at ht
      rw [register_pool] at ht
      split_ifs at ht with ha
      · simp only [List.mem_append, List.mem_singleton] at ht
        rcases ht with ht | ht
        · exact hP b alignment t (by simp only [Function.update_same]; exact ht)
        · subst ht
          exact hk
      · exact hP b a t (by simp only [Function.update_same]; exact ht)
    · simp only [Function.update_noteq hb] at ht
      exact hP b a t (by simp only [Function.update_noteq hb]; exact ht)
  · intro b a t ht
    apply h b a t
    by_cases hb : b = self
    · subst hb
      simp only [Function.update_same] at ht
      exact ht
    · simp only [Function.update_noteq hb] at ht
      exact ht

theorem World.Loaded.poolsKnown {al : TableAlignment} {w : World} (h : World.Loaded al w) :
    w.PoolsKnown := by
  induction h with
  | init db =>
    intro b a t ht
    simp [TableBrush.empty] at ht
  | load w self node _ ih => exact World.load_poolsKnown al w self node ih

/-! ### Item types claimed by another brush are out of reach of `load` -/

/-- `load` leaves untouched every item type that is claimed by a brush other
than the loading one. -/
theorem load_item_db_frame (al : TableAlignment) (self other : BrushId) (node : XmlBrushNode)
    (st : LoadState) (i : Nat) (hne : other ≠ self) (hi : (st.item_db i).brush = some other) :
    (TableBrush.load al self node st).2.item_db i = st.item_db i := by
  refine load_induct (fun s => s.item_db i = st.item_db i) al self node
    (fun _ _ h => h) (fun _ _ h => h) ?_ st rfl
  intro s tbl sub a _ _ _ hP _ _ hfree
  simp only at hP ⊢
  rw [register_item_db]
  split_ifs with hid
  · exfalso
    apply hfree
    rw [← hid, hP, hi]
    exact ⟨by simp, fun hc => hne (Option.some.inj hc)⟩
  · exact hP

/-! ### Running `load` up to an item entry -/

theorem loadItems_offending (self : BrushId) (alignment : Fin 7) (sub : XmlItemNode)
    (rest : List XmlItemNode) (st : LoadState) (h : offending self st sub) :
    loadItems self alignment (sub :: rest) st = (false, st.warn (failureWarning st sub)) := by
  obtain ⟨h1, h2, h3⟩ := h
  unfold loadItems failureWarning
  by_cases hk : (st.item_db sub.id).id = 0
  · simp [h1, h2, hk]
  · rcases h3 with h3 | h3
    · exact absurd h3 hk
    · simp [h1, h2, hk, h3]

theorem loadItems_cons (self : BrushId) (alignment : Fin 7) (sub : XmlItemNode)
    (rest : List XmlItemNode) (st : LoadState) :
    loadItems self alignment (sub :: rest) st
      = if as_lower_str sub.name ≠ "item" then loadItems self alignment rest st
        else if sub.id = 0 then (true, st.warn "Could not read id tag of item node\n")
        else if (st.item_db sub.id).id = 0 then
          (false, st.warn ("There is no itemtype with id " ++ toString sub.id))
        else if (st.item_db sub.id).brush ≠ none ∧ (st.item_db sub.id).brush ≠ some self then
          (false, st.warn ("Itemtype id " ++ toString sub.id ++ " already has a brush"))
        else loadItems self alignment rest (st.register self alignment sub.id sub.chance) := by
  rw [loadItems]

/-- When the inner loop runs through `ipre` without `break` and without
`return false`, it goes on with the entries that follow. -/
theorem loadItems_append (self : BrushId) (alignment : Fin 7) (ipre l : List XmlItemNode)
    (st : LoadState) (hnb : noBreak ipre)
    (hpre : (loadItems self alignment ipre st).1 = true) :
    loadItems self alignment (ipre ++ l) st
      = loadItems self alignment l (loadItems self alignment ipre st).2 := by
  induction ipre generalizing st with
  | nil => rfl
  | cons sub rest ih =>
    have hnb2 : noBreak rest := fun s hs => hnb s (List.mem_cons_of_mem _ hs)
    have hsub := hnb sub (List.mem_cons_self _ _)
    rw [List.cons_append, loadItems_cons, loadItems_cons self alignment sub rest st]
    rw [loadItems_cons] at hpre
    split_ifs at hpre ⊢ with h1 h2 h3 h4
    · exact ih st hnb2 hpre
    · exact absurd h2 (hsub (by simpa using h1))
    · exact ih _ hnb2 hpre

theorem loadTables_cons_valid (al : TableAlignment) (self : BrushId) (child : XmlTableNode)
    (rest : List XmlTableNode) (st : LoadState) (alignment : Fin 7)
    (hv : validTable al child alignment) :
    loadTables al self (child :: rest) st
      = if (loadItems self alignment child.children st).1 = true
        then loadTables al self rest (loadItems self alignment child.children st).2
        else (false, (loadItems self alignment child.children st).2) := by
  obtain ⟨h1, h2, h3⟩ := hv
  rw [loadTables]
  simp only [h1, h2, h3, ne_eq, not_true_eq_false, if_false, Bool.false_eq_true]
  rcases loadItems self alignment child.children st with ⟨ok, st1⟩
  cases ok <;> simp

/-- A table node that does not pass the guards is skipped: the loop goes on
with the next table node, in a state that does not depend on what follows. -/
theorem loadTables_cons_skip (al : TableAlignment) (self : BrushId) (child : XmlTableNode)
    (st : LoadState) (hv : ∀ a, ¬validTable al child a) :
    ∃ st1, st1.item_db = st.item_db ∧ st1.brush = st.brush ∧
      ∀ rest, loadTables al self (child :: rest) st = loadTables al self rest st1 := by
  by_cases h1 : as_lower_str child.name = "table"
  · by_cases h2 : child.align.isEmpty = true
    · refine ⟨st.warn "Could not read type tag of table node\n", rfl, rfl, ?_⟩
      intro rest
      rw [loadTables]
      simp [h1, h2]
    · cases h3 : alignmentOf al child.align with
      | none =>
        refine ⟨st.warn ("Unknown table alignment \x27" ++ child.align ++ "\x27\n"),
          rfl, rfl, ?_⟩
        intro rest
        rw [loadTables]
        simp [h1, h2, h3]
      | some a => exact absurd ⟨h1, by simpa using h2, h3⟩ (hv a)
  · refine ⟨st, rfl, rfl, ?_⟩
    intro rest
    rw [loadTables]
    simp [h1]

theorem validTable_or_not (al : TableAlignment) (child : XmlTableNode) :
    (∃ a, validTable al child a) ∨ ∀ a, ¬validTable al child a := by
  by_cases h : ∃ a, validTable al child a
  · exact Or.inl h
  · exact Or.inr (fun a ha => h ⟨a, ha⟩)

/-- When the outer loop runs through `pre` without `return false`, it goes on
with the table nodes that follow. -/
theorem loadTables_append (al : TableAlignment) (self : BrushId) (pre l : List XmlTableNode)
    (st : LoadState) (hpre : (loadTables al self pre st).1 = true) :
    loadTables al self (pre ++ l) st = loadTables al self l (loadTables al self pre st).2 := by
  induction pre generalizing st with
  | nil => rfl
  | cons child rest ih =>
    rw [List.cons_append]
    rcases validTable_or_not al child with ⟨a, hv⟩ | hv
    · rw [loadTables_cons_valid al self child _ st a hv] at hpre ⊢
      rw [loadTables_cons_valid al self child _ st a hv]
      split_ifs at hpre ⊢ with hok
      · exact ih _ hpre
    · obtain ⟨st1, _, _, hs⟩ := loadTables_cons_skip al self child st hv
      rw [hs] at hpre ⊢
      rw [hs]
      exact ih st1 hpre

/-- A `return false` in the first table nodes ends the outer loop. -/
theorem loadTables_append_false (al : TableAlignment) (self : BrushId)
    (pre l : List XmlTableNode) (st : LoadState)
    (hpre : (loadTables al self pre st).1 = false) :
    loadTables al self (pre ++ l) st = loadTables al self pre st := by
  induction pre generalizing st with
  | nil => simp [loadTables] at hpre
  | cons child rest ih =>
    rw [List.cons_append]
    rcases validTable_or_not al child with ⟨a, hv⟩ | hv
    · rw [loadTables_cons_valid al self child _ st a hv] at hpre ⊢
      rw [loadTables_cons_valid al self child _ st a hv]
      split_ifs at hpre ⊢ with hok
      · exact ih _ hpre
      · rfl
    · obtain ⟨st1, _, _, hs⟩ := loadTables_cons_skip al self child st hv
      rw [hs] at hpre ⊢
      rw [hs]
      exact ih st1 hpre

theorem loadTables_cut (al : TableAlignment) (self : BrushId) (pre : List XmlTableNode)
    (tbl : XmlTableNode) (ipre : List XmlItemNode) (alignment : Fin 7) (st : LoadState)
    (hv : validTable al tbl alignment) (hpre : (loadTables al self pre st).1 = true) :
    loadTables al self (pre ++ [{ tbl with children := ipre }]) st
      = loadItems self alignment ipre (loadTables al self pre st).2 := by
  have hv2 : validTable al { tbl with children := ipre } alignment := hv
  rw [loadTables_append al self pre _ st hpre,
    loadTables_cons_valid al self _ [] _ alignment hv2]
  simp only
  rcases loadItems self alignment ipre (loadTables al self pre st).2 with ⟨ok, st1⟩
  cases ok <;> simp [loadTables]

/-- The outer loop stops with `return false` at an offending entry it reaches:
the state is the one reached right before the entry, plus the warning. -/
theorem loadTables_fails_at (al : TableAlignment) (self : BrushId)
    (pre post : List XmlTableNode) (tbl : XmlTableNode) (ipre ipost : List XmlItemNode)
    (sub : XmlItemNode) (alignment : Fin 7) (st : LoadState)
    (hc : tbl.children = ipre ++ sub :: ipost) (hv : validTable al tbl alignment)
    (hnb : noBreak ipre)
    (hok : (loadTables al self (pre ++ [{ tbl with children := ipre }]) st).1 = true)
    (hoff : offending self
      (loadTables al self (pre ++ [{ tbl with children := ipre }]) st).2 sub) :
    loadTables al self (pre ++ tbl :: post) st
      = (false, (loadTables al self (pre ++ [{ tbl with children := ipre }]) st).2.warn
          (failureWarning
            (loadTables al self (pre ++ [{ tbl with children := ipre }]) st).2 sub)) := by
  have hpre : (loadTables al self pre st).1 = true := by
    by_contra hne
    have hf : (loadTables al self pre st).1 = false := by simpa using hne
    rw [loadTables_append_false al self pre _ st hf, hf] at hok
    simp at hok
  have hcut := loadTables_cut al self pre tbl ipre alignment st hv hpre
  rw [hcut] at hok hoff ⊢
  rw [loadTables_append al self pre _ st hpre,
    loadTables_cons_valid al self tbl post _ alignment hv, hc,
    loadItems_append self alignment ipre _ _ hnb hok,
    loadItems_offending self alignment sub ipost _ hoff]
  simp

/-- `load` stops with `return false` at an offending entry it reaches: the
result is the state produced by the definition cut before the entry, plus the
warning. -/
theorem load_fails_at (al : TableAlignment) (self : BrushId) (node : XmlBrushNode)
    (pre post : List XmlTableNode) (tbl : XmlTableNode) (ipre ipost : List XmlItemNode)
    (sub : XmlItemNode) (alignment : Fin 7) (st : LoadState)
    (hn : node.children = pre ++ tbl :: post)
    (hc : tbl.children = ipre ++ sub :: ipost) (hv : validTable al tbl alignment)
    (hnb : noBreak ipre)
    (hok : (TableBrush.load al self (node.cutBefore pre tbl ipre) st).1 = true)
    (hoff : offending self (TableBrush.load al self (node.cutBefore pre tbl ipre) st).2 sub) :
    TableBrush.load al self node st
      = (false, (TableBrush.load al self (node.cutBefore pre tbl ipre) st).2.warn
          (failureWarning (TableBrush.load al self (node.cutBefore pre tbl ipre) st).2 sub)) := by
  unfold TableBrush.load XmlBrushNode.cutBefore at *
  simp only at hok hoff ⊢
  rw [hn]
  exact loadTables_fails_at al self pre post tbl ipre ipost sub alignment _ hc hv hnb hok hoff

/-- A `return false` of the inner loop happens at an offending entry that the
loop reaches without `break`. -/
theorem loadItems_false_decomp (self : BrushId) (alignment : Fin 7) (items : List XmlItemNode)
    (st : LoadState) (hf : (loadItems self alignment items st).1 = false) :
    ∃ ipre sub ipost, items = ipre ++ sub :: ipost ∧ noBreak ipre ∧
      (loadItems self alignment ipre st).1 = true ∧
      offending self (loadItems self alignment ipre st).2 sub := by
  induction items generalizing st with
  | nil => simp [loadItems] at hf
  | cons head rest ih =>
    rw [loadItems_cons] at hf
    split_ifs at hf with h1 h2 h3 h4
    · obtain ⟨ipre, sub, ipost, he, hnb, hok, hoff⟩ := ih st hf
      refine ⟨head :: ipre, sub, ipost, by rw [he]; rfl, ?_, ?_, ?_⟩
      · intro s hs hname
        rcases List.mem_cons.mp hs with rfl | hs
        · exact absurd hname h1
        · exact hnb s hs hname
      · rw [loadItems_cons, if_pos h1]; exact hok
      · rw [loadItems_cons, if_pos h1]; exact hoff
    · exact ⟨[], head, rest, rfl, fun s hs => by simp at hs, rfl,
        ⟨by simpa using h1, h2, Or.inl h3⟩⟩
    · exact ⟨[], head, rest, rfl, fun s hs => by simp at hs, rfl,
        ⟨by simpa using h1, h2, Or.inr h4⟩⟩
    · obtain ⟨ipre, sub, ipost, he, hnb, hok, hoff⟩ := ih _ hf
      refine ⟨head :: ipre, sub, ipost, by rw [he]; rfl, ?_, ?_, ?_⟩
      · intro s hs hname
        rcases List.mem_cons.mp hs with rfl | hs
        · exact h2
        · exact hnb s hs hname
      · rw [loadItems_cons, if_neg h1, if_neg h2, if_neg h3, if_neg h4]; exact hok
      · rw [loadItems_cons, if_neg h1, if_neg h2, if_neg h3, if_neg h4]; exact hoff

/-- A `return false` of the outer loop happens at an offending entry of a
table node that passes the guards, reached without `break` and without an
earlier `return false`. -/
theorem loadTables_false_decomp (al : TableAlignment) (self : BrushId)
    (tables : List XmlTableNode) (st : LoadState)
    (hf : (loadTables al self tables st).1 = false) :
    ∃ pre tbl post ipre sub ipost alignment,
      tables = pre ++ tbl :: post ∧ tbl.children = ipre ++ sub :: ipost ∧
      validTable al tbl alignment ∧ noBreak ipre ∧
      (loadTables al self (pre ++ [{ tbl with children := ipre }]) st).1 = true ∧
      offending self (loadTables al self (pre ++ [{ tbl with children := ipre }]) st).2 sub := by
  induction tables generalizing st with
  | nil => simp [loadTables] at hf
  | cons child rest ih =>
    rcases validTable_or_not al child with ⟨a, hv⟩ | hv
    · rw [loadTables_cons_valid al self child rest st a hv] at hf
      split_ifs at hf with hok
      · obtain ⟨pre, tbl, post, ipre, sub, ipost, a2, he, hc, hv2, hnb, hok2, hoff⟩ := ih _ hf
        refine ⟨child :: pre, tbl, post, ipre, sub, ipost, a2, by rw [he]; rfl, hc, hv2, hnb,
          ?_, ?_⟩
        · rw [List.cons_append, loadTables_cons_valid al self child _ st a hv]
          simp only [hok, if_true]
          exact hok2
        · rw [List.cons_append, loadTables_cons_valid al self child _ st a hv]
          simp only [hok, if_true]
          exact hoff
      · have hfi : (loadItems self a child.children st).1 = false := by simpa using hok
        obtain ⟨ipre, sub, ipost, he, hnb, hok2, hoff⟩ :=
          loadItems_false_decomp self a child.children st hfi
        have hcut := loadTables_cut al self [] child ipre a st hv rfl
        refine ⟨[], child, rest, ipre, sub, ipost, a, rfl, he, hv, hnb, ?_, ?_⟩
        · rw [hcut]; exact hok2
        · rw [hcut]; exact hoff
    · obtain ⟨st1, _, _, hs⟩ := loadTables_cons_skip al self child st hv
      rw [hs] at hf
      obtain ⟨pre, tbl, post, ipre, sub, ipost, a2, he, hc, hv2, hnb, hok2, hoff⟩ := ih _ hf
      refine ⟨child :: pre, tbl, post, ipre, sub, ipost, a2, by rw [he]; rfl, hc, hv2, hnb,
        ?_, ?_⟩
      · rw [List.cons_append, hs]; exact hok2
      · rw [List.cons_append, hs]; exact hoff

/-! ### Exclusive ownership of item ids -/

/-- C11. In every process state built by `load` calls, an item id that occurs
in a pool of a brush has that brush as the back-reference of its item type and
occurs in the pools of no other brush. For an id in a pool of brush `oak` and
a load of another brush `pine`: whatever the load does, the pools of `oak` and
the item type of the id are unchanged and the id is in no pool of `pine`; and
when the load reaches an item entry with that id (the definition cut before
the entry loads without `return false` and without `break` in the entry's
table node), it returns false and its last warning is "Itemtype id N already
has a brush". -/
theorem load_exclusive_ownership (al : TableAlignment) (w : World) (hw : World.Loaded al w) :
    (∀ (b : BrushId) (a : Fin 7) (t : TableType), t ∈ ((w.brushes b).table_items a).items →
      (w.item_db t.item_id).brush = some b ∧
      ∀ (b' : BrushId) (a' : Fin 7) (t' : TableType),
        t' ∈ ((w.brushes b').table_items a').items → t'.item_id = t.item_id → b' = b) ∧
    (∀ (oak pine : BrushId) (a : Fin 7) (t : TableType),
      t ∈ ((w.brushes oak).table_items a).items → pine ≠ oak →
      ∀ node : XmlBrushNode,
        (World.load al w pine node).2.brushes oak = w.brushes oak ∧
        (World.load al w pine node).2.item_db t.item_id = w.item_db t.item_id ∧
        (∀ (a' : Fin 7) (t' : TableType),
          t' ∈ (((World.load al w pine node).2.brushes pine).table_items a').items →
          t'.item_id ≠ t.item_id) ∧
        (∀ (pre post : List XmlTableNode) (tbl : XmlTableNode)
            (ipre ipost : List XmlItemNode) (sub : XmlItemNode) (alignment : Fin 7),
          node.children = pre ++ tbl :: post → tbl.children = ipre ++ sub :: ipost →
          validTable al tbl alignment → noBreak ipre →
          (TableBrush.load al pine (node.cutBefore pre tbl ipre)
            ⟨w.item_db, w.brushes pine, []⟩).1 = true →
          as_lower_str sub.name = "item" → sub.id = t.item_id →
          (TableBrush.load al pine node ⟨w.item_db, w.brushes pine, []⟩).1 = false ∧
          (TableBrush.load al pine node ⟨w.item_db, w.brushes pine, []⟩).2.warnings.getLast?
            = some ("Itemtype id " ++ toString sub.id ++ " already has a brush"))) := by
  have hown := hw.poolsOwned
  have hknown := hw.poolsKnown
  constructor
  · intro b a t ht
    refine ⟨(hown b a t ht).2.2, ?_⟩
    intro b' a' t' ht' he
    have h1 := (hown b' a' t' ht').2.2
    rw [he, (hown b a t ht).2.2] at h1
    exact (Option.some.inj h1).symm
  · intro oak pine a t ht hne node
    obtain ⟨h0, _, hbr⟩ := hown oak a t ht
    have hk := hknown oak a t ht
    have hframe : ∀ n : XmlBrushNode,
        (TableBrush.load al pine n ⟨w.item_db, w.brushes pine, []⟩).2.item_db t.item_id
          = w.item_db t.item_id :=
      fun n => load_item_db_frame al pine oak n ⟨w.item_db, w.brushes pine, []⟩ t.item_id
        (Ne.symm hne) hbr
    refine ⟨?_, hframe node, ?_, ?_⟩
    · simp [World.load, Function.update_noteq (Ne.symm hne)]
    · intro a' t' ht' he
      have h1 := (World.load_poolsOwned al w pine node hown pine a' t' ht').2.2
      have h2 : (World.load al w pine node).2.item_db t.item_id = w.item_db t.item_id :=
        hframe node
      rw [he, h2, hbr] at h1
      exact hne (Option.some.inj h1).symm
    · intro pre post tbl ipre ipost sub alignment hn hc hv hnb hok hname hid
      have hdb := hframe (node.cutBefore pre tbl ipre)
      rw [← hid] at hdb
      have hoff : offending pine
          (TableBrush.load al pine (node.cutBefore pre tbl ipre)
            ⟨w.item_db, w.brushes pine, []⟩).2 sub := by
        refine ⟨hname, by rw [hid]; exact h0, Or.inr ?_⟩
        rw [hdb, hid, hbr]
        exact ⟨by simp, fun hc2 => hne (Option.some.inj hc2).symm⟩
      have hres := load_fails_at al pine node pre post tbl ipre ipost sub alignment
        ⟨w.item_db, w.brushes pine, []⟩ hn hc hv hnb hok hoff
      rw [hres]
      refine ⟨rfl, ?_⟩
      have hk2 : ¬((TableBrush.load al pine (node.cutBefore pre tbl ipre)
          ⟨w.item_db, w.brushes pine, []⟩).2.item_db sub.id).id = 0 := by
        rw [hdb, hid]; exact hk
      simp [LoadState.warn, failureWarning, hk2]

/-- Instance of C11: after "oak_table" (brush 1) registered id 100, the load of
"pine_table" (brush 2) registers id 101, reaches the entry with id 100 and
returns false with the warning; id 100 stays with brush 1 and the entry with
id 102 is never reached. -/
theorem load_exclusive_ownership_witness :
    (TableBrush.load exampleAlignment 2 pineNode ⟨oakWorld.item_db, oakWorld.brushes 2, []⟩).1
      = false ∧
    (TableBrush.load exampleAlignment 2 pineNode
      ⟨oakWorld.item_db, oakWorld.brushes 2, []⟩).2.warnings.getLast?
      = some ("Itemtype id " ++ toString 100 ++ " already has a brush") ∧
    (World.load exampleAlignment oakWorld 2 pineNode).2.brushes 1 = oakWorld.brushes 1 ∧
    (World.load exampleAlignment oakWorld 2 pineNode).2.item_db 100 = ⟨100, 100, true, some 1⟩ ∧
    ((World.load exampleAlignment oakWorld 2 pineNode).2.brushes 2).table_items 6
      = ⟨1, [⟨101, 1⟩]⟩ := by
  have h := (load_exclusive_ownership exampleAlignment oakWorld
    (World.Loaded.load _ 1 oakNode (World.Loaded.init furnitureDb))).2 1 2 6 ⟨100, 1⟩
    (by decide) (by decide) pineNode
  have hr := h.2.2.2 [] [] pineTable [⟨"item", 101, 1⟩] [⟨"item", 102, 1⟩] ⟨"item", 100, 1⟩ 6
    rfl rfl (by unfold validTable; decide) (by unfold noBreak; decide) (by decide)
    (by decide) rfl
  exact ⟨hr.1, hr.2, h.1, by decide, by decide⟩

/-! ### Alignment strings -/

/-- C12, as stated, fails: the spellings "Vertical" and "ALONE" are not
recognised. A table node with `align="Vertical"` is skipped with the warning
"Unknown table alignment", `load` returns true and its item entry (id 4) is
registered in no pool and stays unclaimed. -/
theorem alignment_case_sensitive_counterexample :
    alignmentOf exampleAlignment "vertical" = some exampleAlignment.TABLE_VERTICAL ∧
    alignmentOf exampleAlignment "Vertical" = none ∧
    alignmentOf exampleAlignment "ALONE" = none ∧
    (TableBrush.load exampleAlignment 1 capitalNode exampleState).1 = true ∧
    (TableBrush.load exampleAlignment 1 capitalNode exampleState).2.warnings
      = ["Unknown table alignment \x27Vertical\x27\n"] ∧
    (∀ a : Fin 7,
      (TableBrush.load exampleAlignment 1 capitalNode exampleState).2.brush.table_items a
        = ⟨0, []⟩) ∧
    (TableBrush.load exampleAlignment 1 capitalNode exampleState).2.item_db 4
      = ⟨4, 104, false, none⟩ := by
  decide

/-- C12, amended. The seven names are recognised by exact comparison: each of
the lower-case names is mapped to its alignment constant and the item entries
of a table node with that `align` value are run through the inner loop for that
alignment; a table node whose non-empty `align` value is any other string,
such as a spelling that differs in letter case, is skipped with the warning
"Unknown table alignment" and none of its entries is registered. -/
theorem alignment_exact_match (al : TableAlignment) :
    (alignmentOf al "vertical" = some al.TABLE_VERTICAL ∧
      alignmentOf al "horizontal" = some al.TABLE_HORIZONTAL ∧
      alignmentOf al "south" = some al.TABLE_SOUTH_END ∧
      alignmentOf al "east" = some al.TABLE_EAST_END ∧
      alignmentOf al "north" = some al.TABLE_NORTH_END ∧
      alignmentOf al "west" = some al.TABLE_WEST_END ∧
      alignmentOf al "alone" = some al.TABLE_ALONE) ∧
    (∀ s : String, s ∉ alignmentNames → alignmentOf al s = none) ∧
    (∀ (self : BrushId) (child : XmlTableNode) (rest : List XmlTableNode) (st : LoadState)
        (alignment : Fin 7),
      as_lower_str child.name = "table" → alignmentOf al child.align = some alignment →
      child.align.isEmpty = false →
      loadTables al self (child :: rest) st
        = if (loadItems self alignment child.children st).1 = true
          then loadTables al self rest (loadItems self alignment child.children st).2
          else (false, (loadItems self alignment child.children st).2)) ∧
    (∀ (self : BrushId) (child : XmlTableNode) (rest : List XmlTableNode) (st : LoadState),
      as_lower_str child.name = "table" → child.align.isEmpty = false →
      child.align ∉ alignmentNames →
      loadTables al self (child :: rest) st
        = loadTables al self rest
            (st.warn ("Unknown table alignment \x27" ++ child.align ++ "\x27\n"))) := by
  have hnone : ∀ s : String, s ∉ alignmentNames → alignmentOf al s = none := by
    intro s hs
    simp only [alignmentNames, List.mem_cons, List.mem_singleton, List.not_mem_nil, or_false,
      not_or] at hs
    obtain ⟨h1, h2, h3, h4, h5, h6, h7⟩ := hs
    simp [alignmentOf, h1, h2, h3, h4, h5, h6, h7]
  refine ⟨⟨?_, ?_, ?_, ?_, ?_, ?_, ?_⟩, hnone, ?_, ?_⟩
  · simp [alignmentOf]
  · simp [alignmentOf]
  · simp [alignmentOf]
  · simp [alignmentOf]
  · simp [alignmentOf]
  · simp [alignmentOf]
  · simp [alignmentOf]
  · intro self child rest st alignment h1 h3 h2
    exact loadTables_cons_valid al self child rest st alignment ⟨h1, h2, h3⟩
  · intro self child rest st h1 h2 h3
    rw [loadTables]
    simp [h1, h2, hnone child.align h3]

/-! ### Entries with id zero and with an unknown id -/

/-- C13 fails on the code: in `zeroIdNode` the entry with id 0 is followed, in
the same table node, by the valid entry with id 5. `load` pushes the warning
and returns true, but the `break` of line 72 leaves the loop over the entries
of the table node: id 5 is registered in no pool and stays unclaimed, while
the entry of the next table node (id 6) is registered. -/
theorem load_id_zero_drops_rest_of_table :
    (TableBrush.load exampleAlignment 1 zeroIdNode exampleState).1 = true ∧
    (TableBrush.load exampleAlignment 1 zeroIdNode exampleState).2.warnings
      = ["Could not read id tag of item node\n"] ∧
    (TableBrush.load exampleAlignment 1 zeroIdNode exampleState).2.brush.table_items
        exampleAlignment.TABLE_ALONE = ⟨0, []⟩ ∧
    (TableBrush.load exampleAlignment 1 zeroIdNode exampleState).2.item_db 5
      = ⟨5, 105, false, none⟩ ∧
    (TableBrush.load exampleAlignment 1 zeroIdNode exampleState).2.brush.table_items
        exampleAlignment.TABLE_NORTH_END = ⟨1, [⟨6, 1⟩]⟩ ∧
    (TableBrush.load exampleAlignment 1 zeroIdNode exampleState).2.item_db 6
      = ⟨6, 106, true, some 1⟩ := by
  decide

/-- `load` never changes the `id` field of an item type. -/
theorem load_item_db_id (al : TableAlignment) (self : BrushId) (node : XmlBrushNode)
    (st : LoadState) (i : Nat) :
    ((TableBrush.load al self node st).2.item_db i).id = (st.item_db i).id := by
  refine load_induct (fun s => (s.item_db i).id = (st.item_db i).id) al self node
    (fun _ _ h => h) (fun _ _ h => h) ?_ st rfl
  intro s tbl sub a _ _ _ hP _ _ _
  simp only at hP ⊢
  rw [register_item_db_id]
  exact hP

/-- C14, as stated, fails: in `unknownIdNode` the entry with the unknown id 50
makes `load` return false. The entry before it (id 4) is registered; the valid
entry after it (id 5) and the entry of the next table node (id 6) are not
processed. -/
theorem load_unknown_id_counterexample :
    (exampleDb 50).id = 0 ∧
    (TableBrush.load exampleAlignment 1 unknownIdNode exampleState).1 = false ∧
    (TableBrush.load exampleAlignment 1 unknownIdNode exampleState).2.warnings
      = ["There is no itemtype with id 50"] ∧
    (TableBrush.load exampleAlignment 1 unknownIdNode exampleState).2.brush.table_items
        exampleAlignment.TABLE_ALONE = ⟨1, [⟨4, 1⟩]⟩ ∧
    (TableBrush.load exampleAlignment 1 unknownIdNode exampleState).2.brush.table_items
        exampleAlignment.TABLE_NORTH_END = ⟨0, []⟩ ∧
    (TableBrush.load exampleAlignment 1 unknownIdNode exampleState).2.item_db 5
      = ⟨5, 105, false, none⟩ ∧
    (TableBrush.load exampleAlignment 1 unknownIdNode exampleState).2.item_db 6
      = ⟨6, 106, false, none⟩ := by
  decide

/-- C14, amended. An unknown item id aborts the brush definition: when `load`
reaches an item entry whose non-zero id has no item type in the item database
(the definition cut before the entry loads without `return false` and without
`break` in the entry's table node), it returns false; the state is the one
reached right before the entry plus the warning "There is no itemtype with id
N", so the entry is dropped and neither the remaining entries nor the remaining
table nodes are processed. -/
theorem load_unknown_id_aborts (al : TableAlignment) (self : BrushId) (node : XmlBrushNode)
    (pre post : List XmlTableNode) (tbl : XmlTableNode) (ipre ipost : List XmlItemNode)
    (sub : XmlItemNode) (alignment : Fin 7) (st : LoadState)
    (hn : node.children = pre ++ tbl :: post)
    (hc : tbl.children = ipre ++ sub :: ipost) (hv : validTable al tbl alignment)
    (hnb : noBreak ipre)
    (hok : (TableBrush.load al self (node.cutBefore pre tbl ipre) st).1 = true)
    (hname : as_lower_str sub.name = "item") (hid : sub.id ≠ 0)
    (hunk : (st.item_db sub.id).id = 0) :
    TableBrush.load al self node st
      = (false, (TableBrush.load al self (node.cutBefore pre tbl ipre) st).2.warn
          ("There is no itemtype with id " ++ toString sub.id)) := by
  have hk : ((TableBrush.load al self (node.cutBefore pre tbl ipre) st).2.item_db sub.id).id
      = 0 := by
    rw [load_item_db_id]; exact hunk
  have hoff : offending self (TableBrush.load al self (node.cutBefore pre tbl ipre) st).2 sub :=
    ⟨hname, hid, Or.inl hk⟩
  rw [load_fails_at al self node pre post tbl ipre ipost sub alignment st hn hc hv hnb hok hoff]
  simp [failureWarning, hk]

/-- Instance of C14 amended: `unknownIdNode` stops at the entry with id 50, in
the state reached after the entry with id 4. -/
theorem load_unknown_id_aborts_witness :
    TableBrush.load exampleAlignment 1 unknownIdNode exampleState
      = (false,
          (TableBrush.load exampleAlignment 1
            (unknownIdNode.cutBefore [] unknownIdTable [⟨"item", 4, 1⟩]) exampleState).2.warn
            ("There is no itemtype with id " ++ toString 50)) :=
  load_unknown_id_aborts exampleAlignment 1 unknownIdNode [] [⟨"table", "north", [⟨"item", 6, 1⟩]⟩]
    unknownIdTable [⟨"item", 4, 1⟩] [⟨"item", 5, 1⟩] ⟨"item", 50, 1⟩ 6 exampleState
    rfl rfl (by unfold validTable; decide) (by unfold noBreak; decide) (by decide)
    (by decide) (by decide) (by decide)

/-! ### A failed `load` keeps what it registered -/

/-- A candidate in a pool and an item type claimed by the loading brush stay so
through a registration. -/
theorem register_keeps (st : LoadState) (self : BrushId) (alignment : Fin 7) (id : Nat)
    (chance : Int) (a : Fin 7) (t : TableType)
    (h : t ∈ (st.brush.table_items a).items ∧
      (st.item_db t.item_id).isTable = true ∧ (st.item_db t.item_id).brush = some self) :
    t ∈ ((st.register self alignment id chance).brush.table_items a).items ∧
      ((st.register self alignment id chance).item_db t.item_id).isTable = true ∧
      ((st.register self alignment id chance).item_db t.item_id).brush = some self := by
  rw [register_pool, register_item_db]
  refine ⟨?_, ?_⟩
  · split_ifs with ha
    · simp [ha ▸ h.1]
    · exact h.1
  · split_ifs with hid
    · exact ⟨rfl, rfl⟩
    · exact h.2

/-- A candidate in a pool and an item type claimed by the loading brush stay so
through the rest of the inner loop. -/
theorem loadItems_keeps (self : BrushId) (alignment : Fin 7) (items : List XmlItemNode)
    (st : LoadState) (a : Fin 7) (t : TableType)
    (h : t ∈ (st.brush.table_items a).items ∧
      (st.item_db t.item_id).isTable = true ∧ (st.item_db t.item_id).brush = some self) :
    t ∈ ((loadItems self alignment items st).2.brush.table_items a).items ∧
      ((loadItems self alignment items st).2.item_db t.item_id).isTable = true ∧
      ((loadItems self alignment items st).2.item_db t.item_id).brush = some self :=
  loadItems_induct
    (fun s => t ∈ (s.brush.table_items a).items ∧
      (s.item_db t.item_id).isTable = true ∧ (s.item_db t.item_id).brush = some self)
    self alignment items (fun _ _ h => h)
    (fun s sub _ hP _ _ _ => register_keeps s self alignment sub.id sub.chance a t hP) st h

/-- The same through the rest of the outer loop. -/
theorem loadTables_keeps (al : TableAlignment) (self : BrushId) (tables : List XmlTableNode)
    (st : LoadState) (a : Fin 7) (t : TableType)
    (h : t ∈ (st.brush.table_items a).items ∧
      (st.item_db t.item_id).isTable = true ∧ (st.item_db t.item_id).brush = some self) :
    t ∈ ((loadTables al self tables st).2.brush.table_items a).items ∧
      ((loadTables al self tables st).2.item_db t.item_id).isTable = true ∧
      ((loadTables al self tables st).2.item_db t.item_id).brush = some self :=
  loadTables_induct
    (fun s => t ∈ (s.brush.table_items a).items ∧
      (s.item_db t.item_id).isTable = true ∧ (s.item_db t.item_id).brush = some self)
    al self tables (fun _ _ h => h)
    (fun s _ sub alignment _ _ _ hP _ _ _ =>
      register_keeps s self alignment sub.id sub.chance a t hP) st h

/-- Every entry named `item` of a list the inner loop runs through without
`break` and without `return false` is registered: its candidate is in the pool
and its item type is flagged as a table and claimed by the brush. -/
theorem loadItems_registers (self : BrushId) (alignment : Fin 7) (ipre : List XmlItemNode)
    (st : LoadState) (hnb : noBreak ipre)
    (hok : (loadItems self alignment ipre st).1 = true)
    (s : XmlItemNode) (hs : s ∈ ipre) (hname : as_lower_str s.name = "item") :
    (⟨s.id, s.chance⟩ : TableType)
        ∈ ((loadItems self alignment ipre st).2.brush.table_items alignment).items ∧
      ((loadItems self alignment ipre st).2.item_db s.id).isTable = true ∧
      ((loadItems self alignment ipre st).2.item_db s.id).brush = some self := by
  induction ipre generalizing st with
  | nil => simp at hs
  | cons head rest ih =>
    have hnb2 : noBreak rest := fun x hx => hnb x (List.mem_cons_of_mem _ hx)
    have hhead := hnb head (List.mem_cons_self _ _)
    rw [loadItems_cons] at hok ⊢
    split_ifs at hok ⊢ with h1 h2 h3 h4
    · rcases List.mem_cons.mp hs with rfl | hs2
      · exact absurd hname h1
      · exact ih st hnb2 hok hs2
    · exact absurd h2 (hhead (by simpa using h1))
    · rcases List.mem_cons.mp hs with rfl | hs2
      · apply loadItems_keeps self alignment rest _ alignment ⟨s.id, s.chance⟩
        simp only
        rw [register_pool, register_item_db]
        simp
      · exact ih _ hnb2 hok hs2

theorem loadTables_pre_ok (al : TableAlignment) (self : BrushId) (pre l : List XmlTableNode)
    (st : LoadState) (hok : (loadTables al self (pre ++ l) st).1 = true) :
    (loadTables al self pre st).1 = true := by
  by_contra hne
  have hf : (loadTables al self pre st).1 = false := by simpa using hne
  rw [loadTables_append_false al self pre _ st hf, hf] at hok
  simp at hok

/-- A `return false` in the first entries ends the inner loop. -/
theorem loadItems_append_false (self : BrushId) (alignment : Fin 7)
    (ipre l : List XmlItemNode) (st : LoadState)
    (hpre : (loadItems self alignment ipre st).1 = false) :
    loadItems self alignment (ipre ++ l) st = loadItems self alignment ipre st := by
  induction ipre generalizing st with
  | nil => simp [loadItems] at hpre
  | cons sub rest ih =>
    rw [List.cons_append, loadItems_cons, loadItems_cons self alignment sub rest st]
    rw [loadItems_cons] at hpre
    split_ifs at hpre ⊢ with h1 h2 h3 h4
    · exact ih st hpre
    · rfl
    · rfl
    · exact ih _ hpre

theorem loadItems_pre_ok (self : BrushId) (alignment : Fin 7) (ipre l : List XmlItemNode)
    (st : LoadState) (hok : (loadItems self alignment (ipre ++ l) st).1 = true) :
    (loadItems self alignment ipre st).1 = true := by
  by_contra hne
  have hf : (loadItems self alignment ipre st).1 = false := by simpa using hne
  rw [loadItems_append_false self alignment ipre _ st hf, hf] at hok
  simp at hok

theorem validTable_unique (al : TableAlignment) (tbl : XmlTableNode) (a b : Fin 7)
    (ha : validTable al tbl a) (hb : validTable al tbl b) : a = b := by
  have h := ha.2.2
  rw [hb.2.2] at h
  exact (Option.some.inj h).symm

/-- Every entry a successful run of the outer loop processes is registered: for
a table node that passes the guards and a beginning `jpre` of its children
without `break`, every entry of `jpre` named `item` has its candidate in the
pool of the node's alignment and its item type flagged as a table and claimed
by the brush. -/
theorem loadTables_registers (al : TableAlignment) (self : BrushId)
    (tables : List XmlTableNode) (st : LoadState)
    (hok : (loadTables al self tables st).1 = true)
    (tbl : XmlTableNode) (htbl : tbl ∈ tables) (a : Fin 7) (hv : validTable al tbl a)
    (jpre jpost : List XmlItemNode) (hc : tbl.children = jpre ++ jpost) (hnb : noBreak jpre)
    (s : XmlItemNode) (hs : s ∈ jpre) (hname : as_lower_str s.name = "item") :
    (⟨s.id, s.chance⟩ : TableType) ∈ ((loadTables al self tables st).2.brush.table_items a).items ∧
      ((loadTables al self tables st).2.item_db s.id).isTable = true ∧
      ((loadTables al self tables st).2.item_db s.id).brush = some self := by
  induction tables generalizing st with
  | nil => simp at htbl
  | cons child rest ih =>
    rcases validTable_or_not al child with ⟨a2, hv2⟩ | hv2
    · rw [loadTables_cons_valid al self child rest st a2 hv2] at hok ⊢
      by_cases hitems : (loadItems self a2 child.children st).1 = true
      · rw [if_pos hitems] at hok ⊢
        by_cases he : tbl = child
        · subst he
          have haa := validTable_unique al tbl a a2 hv hv2
          subst haa
          rw [hc] at hitems
          have hpre := loadItems_pre_ok self a jpre jpost st hitems
          have hreg := loadItems_registers self a jpre st hnb hpre s hs hname
          apply loadTables_keeps al self rest _ a ⟨s.id, s.chance⟩
          rw [hc, loadItems_append self a jpre jpost st hnb hpre]
          exact loadItems_keeps self a jpost _ a ⟨s.id, s.chance⟩ hreg
        · rcases List.mem_cons.mp htbl with h1 | h1
          · exact absurd h1 he
          · exact ih _ hok h1
      · rw [if_neg hitems] at hok
        simp at hok
    · obtain ⟨st1, _, _, hskip⟩ := loadTables_cons_skip al self child st hv2
      rw [hskip] at hok ⊢
      rcases List.mem_cons.mp htbl with h1 | h1
      · subst h1
        exact absurd hv (hv2 a)
      · exact ih st1 hok h1

/-- C20. Whenever `load` returns false, it does so at an item entry that is
unknown to the item database or claimed by another brush, reached in a table
node that passes the guards. The item database and the pools after the failure
are those produced by loading the definition cut before that entry (which
loads with result true), and the warnings are those plus the failure warning.
Every item entry processed before the offending one stays registered: the
entries named `item` that precede it in its table node, and, in every earlier
table node that passes the guards, the entries named `item` up to the first
one with id zero, have their candidate (id and chance) in the pool of their
alignment and their item type flagged as a table and claimed by this brush.
Their weights are counted in `total_chance`: when the totals were consistent
before the call, every pool's `total_chance` is the sum of the chances of its
candidates wrapped to 32 bits, hence the sum itself when that is representable
as a 32-bit `int`. -/
theorem load_failure_no_rollback (al : TableAlignment) (self : BrushId) (node : XmlBrushNode)
    (st : LoadState) (hf : (TableBrush.load al self node st).1 = false) :
    ∃ (pre post : List XmlTableNode) (tbl : XmlTableNode) (ipre ipost : List XmlItemNode)
        (sub : XmlItemNode) (alignment : Fin 7),
      node.children = pre ++ tbl :: post ∧ tbl.children = ipre ++ sub :: ipost ∧
      validTable al tbl alignment ∧ noBreak ipre ∧
      (TableBrush.load al self (node.cutBefore pre tbl ipre) st).1 = true ∧
      offending self (TableBrush.load al self (node.cutBefore pre tbl ipre) st).2 sub ∧
      (TableBrush.load al self node st).2.item_db
        = (TableBrush.load al self (node.cutBefore pre tbl ipre) st).2.item_db ∧
      (TableBrush.load al self node st).2.brush
        = (TableBrush.load al self (node.cutBefore pre tbl ipre) st).2.brush ∧
      (TableBrush.load al self node st).2.warnings
        = (TableBrush.load al self (node.cutBefore pre tbl ipre) st).2.warnings
          ++ [failureWarning (TableBrush.load al self (node.cutBefore pre tbl ipre) st).2 sub] ∧
      (∀ s ∈ ipre, as_lower_str s.name = "item" →
        (⟨s.id, s.chance⟩ : TableType)
          ∈ ((TableBrush.load al self node st).2.brush.table_items alignment).items ∧
        ((TableBrush.load al self node st).2.item_db s.id).isTable = true ∧
        ((TableBrush.load al self node st).2.item_db s.id).brush = some self) ∧
      (∀ earlier ∈ pre, ∀ (a : Fin 7) (jpre jpost : List XmlItemNode),
        validTable al earlier a → earlier.children = jpre ++ jpost → noBreak jpre →
        ∀ s ∈ jpre, as_lower_str s.name = "item" →
          (⟨s.id, s.chance⟩ : TableType)
            ∈ ((TableBrush.load al self node st).2.brush.table_items a).items ∧
          ((TableBrush.load al self node st).2.item_db s.id).isTable = true ∧
          ((TableBrush.load al self node st).2.item_db s.id).brush = some self) ∧
      ((∀ a : Fin 7, (st.brush.table_items a).total_chance
          = int32 (sumChance (st.brush.table_items a).items)) →
        ∀ a : Fin 7,
          ((TableBrush.load al self node st).2.brush.table_items a).total_chance
            = int32 (sumChance
                ((TableBrush.load al self node st).2.brush.table_items a).items) ∧
          (-2147483648
              ≤ sumChance ((TableBrush.load al self node st).2.brush.table_items a).items →
            sumChance ((TableBrush.load al self node st).2.brush.table_items a).items
              ≤ 2147483647 →
            ((TableBrush.load al self node st).2.brush.table_items a).total_chance
              = sumChance ((TableBrush.load al self node st).2.brush.table_items a).items)) := by
  have hf2 := hf
  unfold TableBrush.load at hf2
  simp only at hf2
  obtain ⟨pre, tbl, post, ipre, sub, ipost, alignment, hn, hc, hv, hnb, hok, hoff⟩ :=
    loadTables_false_decomp al self node.children _ hf2
  have hok2 : (TableBrush.load al self (node.cutBefore pre tbl ipre) st).1 = true := hok
  have hoff2 : offending self (TableBrush.load al self (node.cutBefore pre tbl ipre) st).2 sub :=
    hoff
  have hres := load_fails_at al self node pre post tbl ipre ipost sub alignment st hn hc hv hnb
    hok2 hoff2
  have hpre := loadTables_pre_ok al self pre _ _ hok
  have hcut := loadTables_cut al self pre tbl ipre alignment _ hv hpre
  have hcut2 : TableBrush.load al self (node.cutBefore pre tbl ipre) st
      = loadItems self alignment ipre (loadTables al self pre
          { st with brush := { st.brush with
              look_id := if (st.item_db node.server_lookid).clientID = 0 then node.lookid
                else (st.item_db node.server_lookid).clientID } }).2 := hcut
  rw [hcut] at hok
  refine ⟨pre, post, tbl, ipre, ipost, sub, alignment, hn, hc, hv, hnb, hok2, hoff2, ?_, ?_, ?_,
    ?_, ?_, ?_⟩
  · rw [hres]; rfl
  · rw [hres]; rfl
  · rw [hres]; rfl
  · intro s hs hname
    rw [hres]
    have hreg := loadItems_registers self alignment ipre _ hnb hok s hs hname
    simp only [LoadState.warn]
    rw [hcut2]
    exact hreg
  · intro earlier hearlier a jpre jpost hva hch hnbj s hs hname
    rw [hres]
    have hreg := loadTables_registers al self pre _ hpre earlier hearlier a hva jpre jpost hch
      hnbj s hs hname
    simp only [LoadState.warn]
    rw [hcut2]
    exact loadItems_keeps self alignment ipre _ a ⟨s.id, s.chance⟩ hreg
  · intro hcons a
    exact total_exact_of_wrapped _ (load_totalsWrapped al self node st hcons a)

/-- Instance of C20: `twoNodeFailNode` fails at the entry with the unknown id
50 of its second table node; the entry of the first table node (id 4, chance
2) and the entry before the offending one (id 5, chance 3) stay in their pools,
counted in the totals, and stay claimed by brush 1. -/
theorem load_failure_no_rollback_witness :
    (TableBrush.load exampleAlignment 1 twoNodeFailNode exampleState).1 = false ∧
    (TableBrush.load exampleAlignment 1 twoNodeFailNode exampleState).2.brush.table_items
        exampleAlignment.TABLE_NORTH_END = ⟨2, [⟨4, 2⟩]⟩ ∧
    (TableBrush.load exampleAlignment 1 twoNodeFailNode exampleState).2.brush.table_items
        exampleAlignment.TABLE_ALONE = ⟨3, [⟨5, 3⟩]⟩ ∧
    (TableBrush.load exampleAlignment 1 twoNodeFailNode exampleState).2.item_db 4
      = ⟨4, 104, true, some 1⟩ ∧
    (TableBrush.load exampleAlignment 1 twoNodeFailNode exampleState).2.item_db 5
      = ⟨5, 105, true, some 1⟩ ∧
    ∃ (pre post : List XmlTableNode) (tbl : XmlTableNode) (ipre ipost : List XmlItemNode)
        (sub : XmlItemNode),
      twoNodeFailNode.children = pre ++ tbl :: post ∧ tbl.children = ipre ++ sub :: ipost ∧
      (TableBrush.load exampleAlignment 1 twoNodeFailNode exampleState).2.item_db
        = (TableBrush.load exampleAlignment 1 (twoNodeFailNode.cutBefore pre tbl ipre)
            exampleState).2.item_db ∧
      (TableBrush.load exampleAlignment 1 twoNodeFailNode exampleState).2.brush
        = (TableBrush.load exampleAlignment 1 (twoNodeFailNode.cutBefore pre tbl ipre)
            exampleState).2.brush := by
  refine ⟨by decide, by decide, by decide, by decide, by decide, ?_⟩
  obtain ⟨pre, post, tbl, ipre, ipost, sub, _, hn, hc, _, _, _, _, hdb, hbr, _⟩ :=
    load_failure_no_rollback exampleAlignment 1 twoNodeFailNode exampleState (by decide)
  exact ⟨pre, post, tbl, ipre, ipost, sub, hn, hc, hdb, hbr⟩

/-! ### Pool totals -/

/-- C15. Starting from a freshly constructed brush (every pool empty with
`total_chance` zero), and more generally from any brush with consistent
totals, after a `load` call, whether it returns true or false and whatever
entries it skipped, every pool has `total_chance` equal to the sum of the
chances of its candidates whenever that sum is representable as a 32-bit
`int` (no 32-bit overflow); in general `total_chance` is that sum wrapped to
32 bits. The same holds for every brush of every process state built by `load`
calls. -/
theorem load_total_chance_is_sum (al : TableAlignment) :
    (∀ (self : BrushId) (node : XmlBrushNode) (db : ItemDatabase) (warnings : List String)
        (a : Fin 7),
      ((TableBrush.load al self node ⟨db, TableBrush.empty, warnings⟩).2.brush.table_items
          a).total_chance
        = int32 (sumChance ((TableBrush.load al self node
            ⟨db, TableBrush.empty, warnings⟩).2.brush.table_items a).items) ∧
      (-2147483648 ≤ sumChance ((TableBrush.load al self node
          ⟨db, TableBrush.empty, warnings⟩).2.brush.table_items a).items →
        sumChance ((TableBrush.load al self node
          ⟨db, TableBrush.empty, warnings⟩).2.brush.table_items a).items ≤ 2147483647 →
        ((TableBrush.load al self node ⟨db, TableBrush.empty, warnings⟩).2.brush.table_items
            a).total_chance
          = sumChance ((TableBrush.load al self node
              ⟨db, TableBrush.empty, warnings⟩).2.brush.table_items a).items)) ∧
    (∀ (self : BrushId) (node : XmlBrushNode) (st : LoadState),
      (∀ a : Fin 7, (st.brush.table_items a).total_chance
        = int32 (sumChance (st.brush.table_items a).items)) →
      ∀ a : Fin 7,
        ((TableBrush.load al self node st).2.brush.table_items a).total_chance
          = int32 (sumChance ((TableBrush.load al self node st).2.brush.table_items a).items) ∧
        (-2147483648 ≤ sumChance ((TableBrush.load al self node st).2.brush.table_items a).items →
          sumChance ((TableBrush.load al self node st).2.brush.table_items a).items
            ≤ 2147483647 →
          ((TableBrush.load al self node st).2.brush.table_items a).total_chance
            = sumChance ((TableBrush.load al self node st).2.brush.table_items a).items)) ∧
    (∀ w : World, World.Loaded al w → ∀ (b : BrushId) (a : Fin 7),
      ((w.brushes b).table_items a).total_chance
        = int32 (sumChance ((w.brushes b).table_items a).items) ∧
      (-2147483648 ≤ sumChance ((w.brushes b).table_items a).items →
        sumChance ((w.brushes b).table_items a).items ≤ 2147483647 →
        ((w.brushes b).table_items a).total_chance
          = sumChance ((w.brushes b).table_items a).items)) := by
  refine ⟨?_, ?_, ?_⟩
  · intro self node db warnings a
    apply total_exact_of_wrapped
    apply load_totalsWrapped al self node ⟨db, TableBrush.empty, warnings⟩
    intro a
    simp [TableBrush.empty, sumChance, int32]
  · intro self node st h a
    exact total_exact_of_wrapped _ (load_totalsWrapped al self node st h a)
  · intro w hw b a
    exact total_exact_of_wrapped _ (hw.totalsWrapped b a)

/-! ### Sign of the weights -/

/-- C16, as stated, fails: `load` accepts the chance -5. After brush 1 loaded
`negativeChanceNode` (result true), its pool holds a candidate of weight -5 and
has `total_chance` -5. `doTables` then draws from the range [1, -5]: two random
sources that agree on every non-empty range lead to different results. And
with the non-negative chances 2147483647 and 1 of `overflowNode` the 32-bit
addition of line 91 wraps: the pool has `total_chance` -2147483648. -/
theorem load_accepts_negative_chance :
    (World.load exampleAlignment exampleInit 1 negativeChanceNode).1 = true ∧
    (negativeWorld.brushes 1).table_items exampleAlignment.TABLE_ALONE
      = ⟨-5, [⟨5, -5⟩, ⟨6, 0⟩]⟩ ∧
    (TableBrush.doTables negativeWorld constantTypes emptyMap (randomWithEmptyRange (-9))
        sixTile).items = [⟨5, 0⟩] ∧
    (TableBrush.doTables negativeWorld constantTypes emptyMap (randomWithEmptyRange (-3))
        sixTile).items = [⟨6, 0⟩] ∧
    (TableBrush.load exampleAlignment 1 overflowNode exampleState).1 = true ∧
    (TableBrush.load exampleAlignment 1 overflowNode exampleState).2.brush.table_items
        exampleAlignment.TABLE_ALONE
      = ⟨-2147483648, [⟨5, 2147483647⟩, ⟨6, 1⟩]⟩ := by
  decide

theorem register_weightsNonNegative (st : LoadState) (self : BrushId) (alignment : Fin 7)
    (id : Nat) (chance : Int) (hc : 0 ≤ chance) (h : st.brush.WeightsNonNegative) :
    (st.register self alignment id chance).brush.WeightsNonNegative := by
  intro a
  rw [register_pool]
  split_ifs with ha
  · intro t ht
    simp only [List.mem_append, List.mem_singleton] at ht
    rcases ht with ht | ht
    · exact h alignment t ht
    · subst ht; exact hc
  · exact h a

theorem doTablesLoop_random_congr (w : World) (table_types : Nat → Fin 7) (map : BaseMap)
    (random random2 : Nat → Int → Int → Int) (x y z : Int)
    (hnn : ∀ (b : BrushId) (a : Fin 7), 0 ≤ ((w.brushes b).table_items a).total_chance)
    (hr : ∀ (k : Nat) (hi : Int), 1 ≤ hi → random k 1 hi = random2 k 1 hi)
    (k : Nat) (items : List Item) :
    doTablesLoop w table_types map random x y z k items
      = doTablesLoop w table_types map random2 x y z k items := by
  induction items generalizing k with
  | nil => rfl
  | cons item rest ih =>
    cases hb : item.getTableBrush w.item_db with
    | none =>
      rw [doTablesLoop, doTablesLoop]
      simp [hb, ih]
    | some tb =>
      by_cases h0 : ((w.brushes tb).table_items
          (resolveBorderType w.item_db table_types map tb x y z)).total_chance = 0
      · rw [doTablesLoop, doTablesLoop]
        simp [hb, h0]
      · have hpos := hnn tb (resolveBorderType w.item_db table_types map tb x y z)
        rw [doTablesLoop_cons_retile w table_types map random x y z k item rest tb hb h0,
          doTablesLoop_cons_retile w table_types map random2 x y z k item rest tb hb h0,
          ih, hr k _ (by omega)]

/-- C16, amended. `load` registers the chance values as they are. When every
item entry of the definition carries a chance of at least zero, the brush had
non-negative weights and consistent totals before the call (a fresh brush
has), and in no pool the sum of the weights after the call exceeds 2147483647
(no 32-bit overflow), then after `load` every candidate has weight at least
zero and every pool a `total_chance` of at least zero. `draw` consults the
random source only for ranges `[1, total_chance]` with `total_chance` at least
one: its result does not depend on what the source returns for any other
range; and so does `doTables` in a process state whose pools all have a
`total_chance` of at least zero. -/
theorem load_nonnegative_of_nonnegative_chances (al : TableAlignment) (self : BrushId)
    (node : XmlBrushNode) (st : LoadState)
    (hst : ∀ a : Fin 7, ∀ t ∈ (st.brush.table_items a).items, 0 ≤ t.chance)
    (hcons : ∀ a : Fin 7, (st.brush.table_items a).total_chance
      = int32 (sumChance (st.brush.table_items a).items))
    (hch : ∀ tbl ∈ node.children, ∀ sub ∈ tbl.children, 0 ≤ sub.chance)
    (hno : ∀ a : Fin 7,
      sumChance ((TableBrush.load al self node st).2.brush.table_items a).items ≤ 2147483647) :
    (∀ a : Fin 7, 0 ≤ ((TableBrush.load al self node st).2.brush.table_items a).total_chance ∧
      ∀ t ∈ ((TableBrush.load al self node st).2.brush.table_items a).items, 0 ≤ t.chance) ∧
    (∀ (db : ItemDatabase) (b : BrushId) (random random2 : Int → Int → Int) (tile : Tile),
      (∀ hi : Int, 1 ≤ hi → random 1 hi = random2 1 hi) →
      TableBrush.draw db b (TableBrush.load al self node st).2.brush random tile
        = TableBrush.draw db b (TableBrush.load al self node st).2.brush random2 tile) ∧
    (∀ (w : World) (table_types : Nat → Fin 7) (map : BaseMap)
        (random random2 : Nat → Int → Int → Int) (tile : Tile),
      (∀ (b : BrushId) (a : Fin 7), 0 ≤ ((w.brushes b).table_items a).total_chance) →
      (∀ (k : Nat) (hi : Int), 1 ≤ hi → random k 1 hi = random2 k 1 hi) →
      TableBrush.doTables w table_types map random tile
        = TableBrush.doTables w table_types map random2 tile) := by
  have hweights : (TableBrush.load al self node st).2.brush.WeightsNonNegative :=
    load_induct (fun s => s.brush.WeightsNonNegative) al self node
      (fun _ _ h => h) (fun _ _ h => h)
      (fun s tbl sub a htbl hsub _ h _ _ _ =>
        register_weightsNonNegative s self a sub.id sub.chance (hch tbl htbl sub hsub) h) st hst
  have htot := load_totalsWrapped al self node st hcons
  refine ⟨?_, ?_, ?_⟩
  · intro a
    refine ⟨?_, hweights a⟩
    have h0 := sumChance_nonneg _ (hweights a)
    rw [htot a, int32_of_range _ (by omega) (hno a)]
    exact h0
  · intro db b random random2 tile hr
    unfold TableBrush.draw
    simp only
    by_cases h1 : ((TableBrush.load al self node st).2.brush.table_items 0).total_chance ≤ 0
    · rw [if_pos h1, if_pos h1]
    · rw [if_neg h1, if_neg h1, hr _ (by omega)]
  · intro w table_types map random random2 tile hnn hr
    unfold TableBrush.doTables
    rw [doTablesLoop_random_congr w table_types map random random2 _ _ _ hnn hr]

/-- Instance of C16 amended: `allAlignmentsNode`, whose chances are 1 and 0,
loaded into a fresh brush gives the pool `[(2, 1), (3, 0)]` with total 1 for
"alone": non-negative weights and a non-negative total. -/
theorem load_nonnegative_of_nonnegative_chances_witness :
    (TableBrush.load exampleAlignment 2 allAlignmentsNode exampleState).2.brush.table_items 6
      = ⟨1, [⟨2, 1⟩, ⟨3, 0⟩]⟩ ∧
    0 ≤ ((TableBrush.load exampleAlignment 2 allAlignmentsNode
      exampleState).2.brush.table_items 6).total_chance :=
  ⟨by decide,
   ((load_nonnegative_of_nonnegative_chances exampleAlignment 2 allAlignmentsNode exampleState
      (by decide) (by decide) (by decide) (by decide)).1 6).1⟩

/-! ### The mask is an index into the classification table -/

theorem neighbours_cases (db : ItemDatabase) (map : BaseMap) (tb : BrushId) (x y z : Int) :
    ∃ b0 b1 b2 b3 b4 b5 b6 b7 : Bool,
      neighbours db map tb x y z = [b0, b1, b2, b3, b4, b5, b6, b7] := by
  unfold neighbours
  split_ifs <;> exact ⟨_, _, _, _, _, _, _, _, rfl⟩

/-- C17. For every combination of the eight neighbour booleans the mask
assembled by the loop of `doTables` is below 256, so the lookup in an array of
256 entries is in bounds and yields exactly one stored entry; equal masks give
the same border type; and distinct combinations of the booleans give distinct
masks. The mask `doTables` computes for any object at any position is such a
mask. -/
theorem tiledata_indexes_table_types :
    (∀ b0 b1 b2 b3 b4 b5 b6 b7 : Bool, tiledataLoop [b0, b1, b2, b3, b4, b5, b6, b7] < 256) ∧
    (∀ (db : ItemDatabase) (map : BaseMap) (tb : BrushId) (x y z : Int),
      tiledataLoop (neighbours db map tb x y z) < 256) ∧
    (∀ (table : List Nat), table.length = 256 →
      ∀ (db : ItemDatabase) (map : BaseMap) (tb : BrushId) (x y z : Int),
        ∃! entry, table[tiledataLoop (neighbours db map tb x y z)]? = some entry) ∧
    (∀ (table_types : Nat → Fin 7) (nb nb2 : List Bool),
      tiledataLoop nb = tiledataLoop nb2 →
      table_types (tiledataLoop nb) = table_types (tiledataLoop nb2)) ∧
    (∀ b0 b1 b2 b3 b4 b5 b6 b7 c0 c1 c2 c3 c4 c5 c6 c7 : Bool,
      tiledataLoop [b0, b1, b2, b3, b4, b5, b6, b7]
        = tiledataLoop [c0, c1, c2, c3, c4, c5, c6, c7] →
      [b0, b1, b2, b3, b4, b5, b6, b7] = [c0, c1, c2, c3, c4, c5, c6, c7]) := by
  have hlt : ∀ (db : ItemDatabase) (map : BaseMap) (tb : BrushId) (x y z : Int),
      tiledataLoop (neighbours db map tb x y z) < 256 := by
    intro db map tb x y z
    obtain ⟨b0, b1, b2, b3, b4, b5, b6, b7, h⟩ := neighbours_cases db map tb x y z
    rw [h]
    exact (tiledataLoop_bits b0 b1 b2 b3 b4 b5 b6 b7).2.1
  refine ⟨fun b0 b1 b2 b3 b4 b5 b6 b7 => (tiledataLoop_bits b0 b1 b2 b3 b4 b5 b6 b7).2.1,
    hlt, ?_, ?_, ?_⟩
  · intro table hlen db map tb x y z
    have hi : tiledataLoop (neighbours db map tb x y z) < table.length := by
      rw [hlen]; exact hlt db map tb x y z
    refine ⟨table[tiledataLoop (neighbours db map tb x y z)], ?_, ?_⟩
    · simp [List.getElem?_eq_getElem hi]
    · intro e he
      rw [List.getElem?_eq_getElem hi] at he
      exact (Option.some.inj he).symm
  · intro table_types nb nb2 h
    rw [h]
  · intro b0 b1 b2 b3 b4 b5 b6 b7 c0 c1 c2 c3 c4 c5 c6 c7 h
    have hb := (tiledataLoop_bits b0 b1 b2 b3 b4 b5 b6 b7).2.2
    have hc := (tiledataLoop_bits c0 c1 c2 c3 c4 c5 c6 c7).2.2
    rw [h] at hb
    have e : ∀ i : Fin 8, [b0, b1, b2, b3, b4, b5, b6, b7].getD i.val false
        = [c0, c1, c2, c3, c4, c5, c6, c7].getD i.val false :=
      fun i => (hb i).symm.trans (hc i)
    have e0 : b0 = c0 := e ⟨0, by omega⟩
    have e1 : b1 = c1 := e ⟨1, by omega⟩
    have e2 : b2 = c2 := e ⟨2, by omega⟩
    have e3 : b3 = c3 := e ⟨3, by omega⟩
    have e4 : b4 = c4 := e ⟨4, by omega⟩
    have e5 : b5 = c5 := e ⟨5, by omega⟩
    have e6 : b6 = c6 := e ⟨6, by omega⟩
    have e7 : b7 = c7 := e ⟨7, by omega⟩
    rw [e0, e1, e2, e3, e4, e5, e6, e7]

/-! ### The seed piece of `draw` -/

theorem undraw_owned_nil (db : ItemDatabase) (self : BrushId) (tile : Tile) :
    (TableBrush.undraw db self tile).items.filter
      (fun it => decide (it.getTableBrush db = some self)) = [] := by
  simp only [TableBrush.undraw, undrawLoop_eq_filter, List.filter_filter]
  rw [List.filter_eq_nil_iff]
  intro it _
  simp

theorem undraw_others (db : ItemDatabase) (self : BrushId) (tile : Tile) :
    (TableBrush.undraw db self tile).items.filter
        (fun it => decide (it.getTableBrush db ≠ some self))
      = tile.items.filter (fun it => decide (it.getTableBrush db ≠ some self)) := by
  simp [TableBrush.undraw, undrawLoop_eq_filter, List.filter_filter]

/-- With non-negative weights, a consistent positive total and a drawn value
that does not exceed `total_chance`, the selection loop yields the id of one
of the candidates of the pool. -/
theorem selectLoop_yields_candidate (tn : TableNode) (r : Int)
    (hsum : tn.total_chance = int32 (sumChance tn.items))
    (hw : ∀ t ∈ tn.items, 0 ≤ t.chance) (hpos : 0 < tn.total_chance)
    (hr : r ≤ tn.total_chance) :
    ∃ t ∈ tn.items, selectLoop r tn.items = t.item_id := by
  have hle := int32_le_self _ (sumChance_nonneg tn.items hw)
  have hne : tn.items ≠ [] := by
    intro he
    rw [he] at hsum
    simp [sumChance, int32] at hsum
    omega
  obtain ⟨i, hi, hsel, _, _⟩ := selectIter_first tn.items r (by omega) hne
  refine ⟨tn.items[i], List.getElem_mem _, ?_⟩
  rw [selectLoop_eq_of_selectIter, hsel]
  simp [List.getD_eq_getElem?_getD, List.getElem?_eq_getElem hi]

/-- C18. In every process state built by `load` calls, for every brush, random
source and tile, the tile after `draw` contains at most one object owned by the
brush; exactly one when the pool at index 0 has non-negative weights and a
positive total and the random source returns a value of the range it is asked
for; none when that pool's `total_chance` is at most zero. The objects not
owned by the brush are those of the tile before, in the same order. -/
theorem draw_at_most_one_seed (al : TableAlignment) (w : World) (hw : World.Loaded al w)
    (self : BrushId) (random : Int → Int → Int) (tile : Tile) :
    ((TableBrush.draw w.item_db self (w.brushes self) random tile).items.filter
      (fun it => decide (it.getTableBrush w.item_db = some self))).length ≤ 1 ∧
    ((∀ t ∈ ((w.brushes self).table_items 0).items, 0 ≤ t.chance) →
      0 < ((w.brushes self).table_items 0).total_chance →
      (∀ lo hi : Int, lo ≤ hi → lo ≤ random lo hi ∧ random lo hi ≤ hi) →
      ((TableBrush.draw w.item_db self (w.brushes self) random tile).items.filter
        (fun it => decide (it.getTableBrush w.item_db = some self))).length = 1) ∧
    (((w.brushes self).table_items 0).total_chance ≤ 0 →
      ((TableBrush.draw w.item_db self (w.brushes self) random tile).items.filter
        (fun it => decide (it.getTableBrush w.item_db = some self))).length = 0) ∧
    (TableBrush.draw w.item_db self (w.brushes self) random tile).items.filter
        (fun it => decide (it.getTableBrush w.item_db ≠ some self))
      = tile.items.filter (fun it => decide (it.getTableBrush w.item_db ≠ some self)) := by
  have hown := hw.poolsOwned
  have htot := hw.totalsWrapped self 0
  have hcreate : ∀ t ∈ ((w.brushes self).table_items 0).items,
      (Item.Create t.item_id).getTableBrush w.item_db = some self := by
    intro t ht
    obtain ⟨_, htab, hbr⟩ := hown self 0 t ht
    simp [Item.getTableBrush, Item.Create, htab, hbr]
  have hadd : ∀ t ∈ ((w.brushes self).table_items 0).items,
      (((TableBrush.undraw w.item_db self tile).addItem (Item.Create t.item_id)).items.filter
        (fun it => decide (it.getTableBrush w.item_db = some self))).length = 1 := by
    intro t ht
    simp only [Tile.addItem, List.filter_append, undraw_owned_nil]
    simp [hcreate t ht]
  refine ⟨?_, ?_, ?_, ?_⟩
  · rcases draw_items_cases w.item_db self (w.brushes self) random tile with h | ⟨t, ht, _, h⟩
    · rw [h, undraw_owned_nil]; simp
    · rw [h, hadd t ht]
  · intro hnonneg hpos hrand
    have hr := (hrand 1 ((w.brushes self).table_items 0).total_chance (by omega)).2
    obtain ⟨t, ht, hsel⟩ := selectLoop_yields_candidate _ _ htot hnonneg hpos hr
    have h0 := (hown self 0 t ht).1
    have hd : TableBrush.draw w.item_db self (w.brushes self) random tile
        = (TableBrush.undraw w.item_db self tile).addItem (Item.Create t.item_id) := by
      unfold TableBrush.draw
      simp only
      rw [if_neg (by omega), hsel, if_pos h0]
    rw [hd, hadd t ht]
  · intro hle
    have hd : TableBrush.draw w.item_db self (w.brushes self) random tile
        = TableBrush.undraw w.item_db self tile := by
      simp [TableBrush.draw, hle]
    rw [hd, undraw_owned_nil]; rfl
  · rcases draw_items_cases w.item_db self (w.brushes self) random tile with h | ⟨t, ht, _, h⟩
    · rw [h, undraw_others]
    · rw [h]
      simp only [Tile.addItem, List.filter_append, undraw_others]
      simp [hcreate t ht]

/-- Instance of C18: brush 2 of `twoBrushWorld` drawn on `mixedTile` replaces
its old object (id 3) by one seed (id 2) and leaves the other objects alone. -/
theorem draw_at_most_one_seed_witness :
    (TableBrush.draw twoBrushWorld.item_db 2 (twoBrushWorld.brushes 2) lowestRandom
        mixedTile).items = [⟨9, 4⟩, ⟨1, 0⟩, ⟨2, 0⟩] ∧
    ((TableBrush.draw twoBrushWorld.item_db 2 (twoBrushWorld.brushes 2) lowestRandom
        mixedTile).items.filter
      (fun it => decide (it.getTableBrush twoBrushWorld.item_db = some 2))).length = 1 :=
  ⟨by decide,
   (draw_at_most_one_seed exampleAlignment twoBrushWorld
      (World.Loaded.load _ 2 allAlignmentsNode
        (World.Loaded.load _ 1 zeroChanceNode (World.Loaded.init exampleDb)))
      2 lowestRandom mixedTile).2.1 (by decide) (by decide)
      (fun lo hi h => ⟨le_refl lo, h⟩)⟩

/-! ### `doTables` does not change who owns an object -/

theorem isTable_of_getTableBrush (db : ItemDatabase) (it : Item) (tb : BrushId)
    (h : it.getTableBrush db = some tb) : it.isTable db = true := by
  unfold Item.getTableBrush at h
  unfold Item.isTable
  by_contra hc
  simp [hc] at h

theorem doTablesLoop_isTable (w : World) (hown : w.PoolsOwned) (table_types : Nat → Fin 7)
    (map : BaseMap) (random : Nat → Int → Int → Int) (x y z : Int) (k : Nat)
    (items : List Item) :
    (doTablesLoop w table_types map random x y z k items).map (fun it => it.isTable w.item_db)
      = items.map (fun it => it.isTable w.item_db) := by
  induction items generalizing k with
  | nil => rfl
  | cons item rest ih =>
    cases hb : item.getTableBrush w.item_db with
    | none =>
      rw [doTablesLoop]
      simp [ih, hb]
    | some tb =>
      by_cases h0 : ((w.brushes tb).table_items
          (resolveBorderType w.item_db table_types map tb x y z)).total_chance = 0
      · rw [doTablesLoop]
        simp [hb, h0]
      · rw [doTablesLoop_cons_retile w table_types map random x y z k item rest tb hb h0]
        simp only [List.map_cons, ih]
        rw [isTable_of_getTableBrush _ _ tb (getTableBrush_retiled w hown item tb hb _ _),
          isTable_of_getTableBrush _ _ tb hb]

theorem doTables_brushes (w : World) (hown : w.PoolsOwned) (table_types : Nat → Fin 7)
    (map : BaseMap) (random : Nat → Int → Int → Int) (tile : Tile) :
    (TableBrush.doTables w table_types map random tile).items.map
        (fun it => it.getTableBrush w.item_db)
      = tile.items.map (fun it => it.getTableBrush w.item_db) := by
  unfold TableBrush.doTables
  split_ifs
  · rfl
  · exact doTablesLoop_brushes w hown _ _ _ _ _ _ _ _

theorem doTables_hasTable (w : World) (hown : w.PoolsOwned) (table_types : Nat → Fin 7)
    (map : BaseMap) (random : Nat → Int → Int → Int) (tile : Tile) :
    (TableBrush.doTables w table_types map random tile).hasTable w.item_db
      = tile.hasTable w.item_db := by
  have h : (TableBrush.doTables w table_types map random tile).items.map
        (fun it => it.isTable w.item_db)
      = tile.items.map (fun it => it.isTable w.item_db) := by
    unfold TableBrush.doTables
    split_ifs
    · rfl
    · exact doTablesLoop_isTable w hown _ _ _ _ _ _ _ _
  have e : ∀ l : List Item, l.any (fun it => it.isTable w.item_db)
      = (l.map (fun it => it.isTable w.item_db)).any id := by
    intro l
    induction l with
    | nil => rfl
    | cons head tail ih => simp [List.any_cons, ih]
  unfold Tile.hasTable
  rw [e, e, h]

theorem doTablesOnMap_hasMatching (w : World) (hown : w.PoolsOwned)
    (table_types : Nat → Fin 7) (random : Nat → Int → Int → Int) (map : BaseMap)
    (x y z : Int) (tb : BrushId) (a b c : Int) :
    hasMatchingTableBrushAtTile w.item_db (doTablesOnMap w table_types random map x y z) tb a b c
      = hasMatchingTableBrushAtTile w.item_db map tb a b c := by
  by_cases hpos : a = x ∧ b = y ∧ c = z
  · obtain ⟨rfl, rfl, rfl⟩ := hpos
    unfold hasMatchingTableBrushAtTile doTablesOnMap
    cases hm : map a b c with
    | none => simp [hm]
    | some tile =>
      simp only [BaseMap.setTile, and_self, if_true]
      have e : ∀ l : List Item,
          l.any (fun it => decide (it.getTableBrush w.item_db = some tb))
            = (l.map (fun it => it.getTableBrush w.item_db)).any
                (fun o => decide (o = some tb)) := by
        intro l
        induction l with
        | nil => rfl
        | cons head tail ih => simp [List.any_cons, ih]
      rw [e, e, doTables_brushes w hown]
  · apply hasMatchingTableBrushAtTile_congr
    exact doTablesOnMap_other w table_types random map x y z a b c hpos

/-- C19. In every process state built by `load` calls (`draw`, `undraw` and
`doTables` change tiles only, never the item database or the pools), every
candidate id in a brush's pools is claimed by that brush; therefore `doTables`
leaves the table brush of every object of the tile as it was, and for the map
with the retiled tile the answer of `hasMatchingTableBrushAtTile` at every
position and for every brush, the "has a table" status of every tile and
the neighbour mask of every position are the same as before. -/
theorem doTables_preserves_ownership (al : TableAlignment) (w : World)
    (hw : World.Loaded al w) (table_types : Nat → Fin 7) (random : Nat → Int → Int → Int)
    (map : BaseMap) (x y z : Int) :
    (∀ (b : BrushId) (a : Fin 7) (t : TableType), t ∈ ((w.brushes b).table_items a).items →
      (w.item_db t.item_id).isTable = true ∧ (w.item_db t.item_id).brush = some b) ∧
    (∀ tile : Tile,
      (TableBrush.doTables w table_types map random tile).items.map
          (fun it => it.getTableBrush w.item_db)
        = tile.items.map (fun it => it.getTableBrush w.item_db)) ∧
    (∀ (tb : BrushId) (a b c : Int),
      hasMatchingTableBrushAtTile w.item_db (doTablesOnMap w table_types random map x y z)
          tb a b c
        = hasMatchingTableBrushAtTile w.item_db map tb a b c) ∧
    (∀ a b c : Int,
      ((doTablesOnMap w table_types random map x y z) a b c).map
          (fun t => t.hasTable w.item_db)
        = (map a b c).map (fun t => t.hasTable w.item_db)) ∧
    (∀ (tb : BrushId) (a b c : Int),
      tiledataLoop (neighbours w.item_db (doTablesOnMap w table_types random map x y z) tb a b c)
        = tiledataLoop (neighbours w.item_db map tb a b c)) := by
  have hown := hw.poolsOwned
  refine ⟨fun b a t ht => (hown b a t ht).2, fun tile => doTables_brushes w hown _ _ _ tile,
    fun tb a b c => doTablesOnMap_hasMatching w hown _ _ _ x y z tb a b c, ?_, ?_⟩
  · intro a b c
    by_cases hpos : a = x ∧ b = y ∧ c = z
    · obtain ⟨rfl, rfl, rfl⟩ := hpos
      unfold doTablesOnMap
      cases hm : map a b c with
      | none => simp [hm]
      | some tile =>
        simp [BaseMap.setTile, doTables_hasTable w hown]
    · rw [doTablesOnMap_other w table_types random map x y z a b c hpos]
  · intro tb a b c
    unfold neighbours
    simp only [doTablesOnMap_hasMatching w hown]

/-- Instance of C19: retiling `mixedTile` in `twoBrushWorld` changes the id of
its first object from 3 to 2, and brush 2 is still found at the position of the
tile. -/
theorem doTables_preserves_ownership_witness :
    ((doTablesOnMap twoBrushWorld constantTypes lowestRandomSeq mixedMap 5 5 7) 5 5 7).map
        Tile.items = some [⟨2, 0⟩, ⟨9, 4⟩, ⟨1, 0⟩] ∧
    hasMatchingTableBrushAtTile twoBrushWorld.item_db
        (doTablesOnMap twoBrushWorld constantTypes lowestRandomSeq mixedMap 5 5 7) 2 5 5 7
      = true :=
  ⟨by decide,
   ((doTables_preserves_ownership exampleAlignment twoBrushWorld
      (World.Loaded.load _ 2 allAlignmentsNode
        (World.Loaded.load _ 1 zeroChanceNode (World.Loaded.init exampleDb)))
      constantTypes lowestRandomSeq mixedMap 5 5 7).2.2.1 2 5 5 7).trans (by decide)⟩

end Rme
